import Mathlib

/-! Verification development for the SasyaNova core (src/app.py): the data
model, the SSE broadcaster, annachi (provider) selection, and the
order-creation and status-update operations.  Latitude/longitude and money
arithmetic is modelled over `ℚ`; the haversine function itself is passed
as a parameter `hav : ℚ → ℚ → ℚ → ℚ → ℚ`, since only its comparisons
against service radii and the `10^8` / `10^9` sentinels steer the control
flow of `select_best_annachi`. -/

namespace SasyaNova

/-- User row (src/app.py, class User): `role` is one of
consumer/annachi/farmer/ngo; the shop location fields are nullable. -/
structure User where
  id : Nat
  email : String
  role : String
  shop_lat : Option ℚ
  shop_lng : Option ℚ
  pincode : Option String
  service_radius_km : Option Int
deriving DecidableEq

/-- Product row (src/app.py, class Product). -/
structure Product where
  id : Nat
  name : String
  category : String
  mrp : ℚ
  price : ℚ
  stock : Int
  pincode : String
  total_purchased : Option Int
  owner_id : Nat
deriving DecidableEq

/-- Order row (src/app.py, class Order): one line of a bundle. -/
structure Order where
  id : Nat
  consumer_id : Nat
  product_id : Nat
  quantity : Int
  status : String
  assigned_annachi_id : Option Nat
  bundle_id : Option String
deriving DecidableEq

/-- SSE event payload: the fields of the dicts handed to `broadcast`. -/
structure Event where
  type : String
  owner_id : Option Nat
  consumer_id : Option Nat
  assigned_annachi_id : Option Nat
  order_id : Option Nat
  status : Option String
  bundle_id : Option String
deriving DecidableEq

/-- Subscriber queue (a `SimpleQueue` in the source); `fails` models
`put_nowait` raising for this queue during a publish. -/
structure Queue where
  qid : Nat
  contents : List Event
  fails : Bool
deriving DecidableEq

/-- The state the embedded operations read and write: the three tables,
the SSE subscriber set, and the autoincrement counter of the order table. -/
structure AppState where
  users : List User
  products : List Product
  orders : List Order
  subscribers : List Queue
  nextOrderId : Nat
deriving DecidableEq

/-- src/app.py `FIXED_CATS`: the closed category set. -/
def FIXED_CATS : List String := ["cereals", "fruits", "vegetables"]

/-- The ASCII whitespace Python's `str.strip()` removes. -/
def isSpaceChar (c : Char) : Bool :=
  c = ' ' || c = '\t' || c = '\n' || c = '\r' || c = '\x0b' || c = '\x0c'

/-- Python `str.strip()`: drop leading and trailing whitespace. -/
def pyStrip (s : String) : String :=
  ⟨((s.data.dropWhile isSpaceChar).reverse.dropWhile isSpaceChar).reverse⟩

/-- Lower-case one ASCII letter, as `str.lower()` does per character. -/
def lowerChar (c : Char) : Char :=
  if 'A' ≤ c ∧ c ≤ 'Z' then Char.ofNat (c.toNat + 32) else c

/-- Python `str.lower()` on the ASCII names this catalog uses. -/
def pyLower (s : String) : String := ⟨s.data.map lowerChar⟩

/-- Python `str.startswith(pre)`. -/
def strStartsWith (s pre : String) : Bool := pre.data.isPrefixOf s.data

/-- Drop the first `n` characters of a string. -/
def strDrop (s : String) (n : Nat) : String := ⟨s.data.drop n⟩

/-- src/app.py `broadcast(data)`: enqueue `data` on a snapshot of every
subscriber queue; a queue whose enqueue raises is collected on the `dead`
list and discarded from the registry afterwards.  No exception escapes. -/
def broadcast (subs : List Queue) (data : Event) : List Queue :=
  ((subs.map fun q =>
      if q.fails then q else { q with contents := q.contents ++ [data] }).filter
    fun q => !q.fails)

/-- Fold of `broadcast` over a list of events (the per-line fan-out loops). -/
def broadcastAll (subs : List Queue) (evs : List Event) : List Queue :=
  evs.foldl broadcast subs

/-- The `10**8` finiteness threshold of `select_best_annachi`. -/
def FINITE_CAP : ℚ := 100000000

/-- The `10**9` sentinel distance of `_distance_km`. -/
def SENTINEL : ℚ := 1000000000

/-- src/app.py `_distance_km`: `10**9` when either endpoint lacks
coordinates, otherwise the haversine distance. -/
def distanceKm (hav : ℚ → ℚ → ℚ → ℚ → ℚ) (clat clng : Option ℚ) (a : User) : ℚ :=
  match clat, clng, a.shop_lat, a.shop_lng with
  | some la, some lo, some sa, some so => hav la lo sa so
  | _, _, _, _ => SENTINEL

/-- src/app.py `select_best_annachi.score`: the ranking key
`(out_of_radius_flag, distance, id)`.  The radius is enforced only when the
consumer has GPS and the row's `service_radius_km` is an int; a sentinel
distance (missing shop coordinates) never sets the flag. -/
def score (hav : ℚ → ℚ → ℚ → ℚ → ℚ) (clat clng : Option ℚ) (a : User) : Nat × ℚ × Nat :=
  match clat, clng, a.service_radius_km with
  | some _, some _, some r =>
    if distanceKm hav clat clng a < FINITE_CAP ∧ ¬ distanceKm hav clat clng a ≤ (r : ℚ) then
      (1, SENTINEL, a.id)
    else (0, distanceKm hav clat clng a, a.id)
  | _, _, _ => (0, distanceKm hav clat clng a, a.id)

/-- Strict lexicographic comparison on a `(distance, id)` pair, as Python
compares the tuples `(t[0], t[1])` of the in-radius fallback sort. -/
def pairLt (x y : ℚ × Nat) : Bool :=
  decide (x.1 < y.1) || (decide (x.1 = y.1) && decide (x.2 < y.2))

/-- Strict lexicographic comparison on a full `(flag, distance, id)` score,
as Python compares the key tuples of `sorted(choice_pool, key=score)`. -/
def keyLt (x y : Nat × ℚ × Nat) : Bool :=
  decide (x.1 < y.1) || (decide (x.1 = y.1) && pairLt x.2 y.2)

/-- Left fold that keeps the first element with the least key: exactly the
element `sorted(..., key=...)[0]` of a stable sort picks. -/
def pickMin {α : Type} (lt : α → α → Bool) (x : α) (xs : List α) : α :=
  xs.foldl (fun b y => if lt y b then y else b) x

/-- First minimal element of a list, `none` on the empty list. -/
def argminBy {α : Type} (lt : α → α → Bool) : List α → Option α
  | [] => none
  | x :: xs => some (pickMin lt x xs)

/-- All users with role annachi: the selector's candidate pool. -/
def annsAll (users : List User) : List User :=
  users.filter fun u => u.role == "annachi"

/-- Phase 1 of `select_best_annachi`: the same-pincode subset, computed only
when the consumer pincode is truthy (present and non-empty). -/
def phase1Pool (users : List User) (cpin : Option String) : List User :=
  match cpin with
  | some s =>
    if s = "" then [] else (annsAll users).filter fun a => pyStrip (a.pincode.getD "") == pyStrip s
  | none => []

/-- `choice_pool = phase1 if phase1 else anns_all`. -/
def selPool (users : List User) (cpin : Option String) : List User :=
  let p1 := phase1Pool users cpin
  if p1.isEmpty then annsAll users else p1

/-- `ranked = sorted(choice_pool, key=score); chosen = ranked[0]`. -/
def rankPool (hav : ℚ → ℚ → ℚ → ℚ → ℚ) (clat clng : Option ℚ) (pool : List User) :
    Option User :=
  argminBy (fun a b => keyLt (score hav clat clng a) (score hav clat clng b)) pool

/-- The global in-radius pool scanned by the escape-valve fallback: finite
distance, int radius, distance within radius. -/
def inradPool (hav : ℚ → ℚ → ℚ → ℚ → ℚ) (la lo : ℚ) (anns : List User) : List User :=
  anns.filter fun a =>
    decide (distanceKm hav (some la) (some lo) a < FINITE_CAP) &&
      a.service_radius_km.isSome &&
      decide (distanceKm hav (some la) (some lo) a ≤ ((a.service_radius_km.getD 0 : Int) : ℚ))

/-- The escape valve of `select_best_annachi`: when GPS exists and the chosen
annachi is out of its own (int) radius at a finite distance, rescan the whole
pool for in-radius annachis and take the nearest (ties by id). -/
def fallbackChoice (hav : ℚ → ℚ → ℚ → ℚ → ℚ) (anns : List User) (la lo : ℚ) (ch0 : User) :
    User :=
  match ch0.service_radius_km with
  | some r =>
    if distanceKm hav (some la) (some lo) ch0 < FINITE_CAP ∧
        (r : ℚ) < distanceKm hav (some la) (some lo) ch0 then
      match argminBy (fun a b =>
          pairLt (distanceKm hav (some la) (some lo) a, a.id)
            (distanceKm hav (some la) (some lo) b, b.id)) (inradPool hav la lo anns) with
      | some b => b
      | none => ch0
    else ch0
  | none => ch0

/-- Round-half-even to an integer, the tie rule of Python's `round`. -/
def roundHalfEven (q : ℚ) : Int :=
  let f := ⌊q⌋
  let r := q - (f : ℚ)
  if r < 1 / 2 then f
  else if 1 / 2 < r then f + 1
  else if f % 2 = 0 then f else f + 1

/-- `round(dd, 3)` over exact rationals. -/
def round3 (q : ℚ) : ℚ := (roundHalfEven (q * 1000) : ℚ) / 1000

/-- The distance returned alongside the chosen annachi: only with GPS and a
finite (`< 10**8`) distance, rounded to three decimals. -/
def distOut (hav : ℚ → ℚ → ℚ → ℚ → ℚ) (clat clng : Option ℚ) (ch : User) : Option ℚ :=
  match clat, clng with
  | some _, some _ =>
    let dd := distanceKm hav clat clng ch
    if dd < FINITE_CAP then some (round3 dd) else none
  | _, _ => none

/-- The escape valve runs only when GPS was provided (`consumer_lat is not
None and consumer_lng is not None`); otherwise the ranked choice stands. -/
def chooseAfterRank (hav : ℚ → ℚ → ℚ → ℚ → ℚ) (anns : List User) (clat clng : Option ℚ)
    (ch0 : User) : User :=
  match clat, clng with
  | some la, some lo => fallbackChoice hav anns la lo ch0
  | _, _ => ch0

/-- src/app.py `select_best_annachi`: pick exactly one annachi (pincode
preferred, then nearest in radius, escape valve for an out-of-radius pick)
and the optional rounded distance. -/
def selectBestAnnachi (hav : ℚ → ℚ → ℚ → ℚ → ℚ) (users : List User) (cpin : Option String)
    (clat clng : Option ℚ) : Option User × Option ℚ :=
  if (annsAll users).isEmpty then (none, none)
  else
    match rankPool hav clat clng (selPool users cpin) with
    | none => (none, none)
    | some ch0 =>
      let ch := chooseAfterRank hav (annsAll users) clat clng ch0
      (some ch, distOut hav clat clng ch)

/-- A raw line item of an order payload (`items[i]` of the JSON body). -/
structure ItemIn where
  name : Option String
  category : Option String
  quantity : Option Int
deriving DecidableEq

/-- A normalized line item of `orders_create_auto`. -/
structure NormItem where
  name : String
  category : String
  qty : Int
deriving DecidableEq

/-- Python's `int(x or 1)` on an optional integer: absent or zero becomes 1. -/
def pyIntOr1 : Option Int → Int
  | none => 1
  | some q => if q = 0 then 1 else q

/-- Normalization of one item: trimmed name, trimmed lower-cased category,
`int(it.get("quantity") or 1)` quantity. -/
def normItem (it : ItemIn) : NormItem :=
  { name := pyStrip (it.name.getD "")
    category := pyLower (pyStrip (it.category.getD ""))
    qty := pyIntOr1 it.quantity }

/-- The validation test of the normalization loop: empty name, category
outside `FIXED_CATS`, or normalized quantity below 1. -/
def isBadItem (it : ItemIn) : Bool :=
  let n := normItem it
  n.name == "" || !(FIXED_CATS.contains n.category) || decide (n.qty < 1)

/-- The normalization loop of `orders_create_auto`: returns the offending
raw item of the first failing line, else all normalized items in order. -/
def normalizeItems : List ItemIn → Except ItemIn (List NormItem)
  | [] => .ok []
  | it :: rest =>
    if isBadItem it then .error it
    else
      match normalizeItems rest with
      | .error e => .error e
      | .ok ns => .ok (normItem it :: ns)

/-- One entry of the `unavailable` list of the 409 response. -/
structure UnavailEntry where
  name : String
  category : String
  reason : String
deriving DecidableEq

/-- The product lookup of the availability loop: the first product of the
selected annachi with this name, category and the annachi's pincode. -/
def findProd (prods : List Product) (annId : Nat) (annPin : Option String) (n : NormItem) :
    Option Product :=
  prods.find? fun p =>
    p.owner_id == annId && p.name == n.name && p.category == n.category &&
      p.pincode == annPin.getD ""

/-- The reason a single line is unavailable, if it is: no product row, or
stock below the requested quantity. -/
def itemReason (prods : List Product) (annId : Nat) (annPin : Option String) (n : NormItem) :
    Option UnavailEntry :=
  match findProd prods annId annPin n with
  | none => some ⟨n.name, n.category, "not_found_for_selected_annachi"⟩
  | some p =>
    if p.stock < n.qty then
      some ⟨n.name, n.category, "insufficient_stock (" ++ toString p.stock ++ " left)"⟩
    else none

/-- The availability loop of `orders_create_auto`: walks every normalized
item, collecting the unavailable entries and the found `(product id, qty)`
rows, both in input order.  No stock is touched here. -/
def checkItems (prods : List Product) (annId : Nat) (annPin : Option String) :
    List NormItem → List UnavailEntry × List (Nat × Int)
  | [] => ([], [])
  | n :: rest =>
    let r := checkItems prods annId annPin rest
    match findProd prods annId annPin n with
    | none => (⟨n.name, n.category, "not_found_for_selected_annachi"⟩ :: r.1, r.2)
    | some p =>
      if p.stock < n.qty then
        (⟨n.name, n.category, "insufficient_stock (" ++ toString p.stock ++ " left)"⟩ :: r.1,
          r.2)
      else (r.1, (p.id, n.qty) :: r.2)

/-- One committed reservation on one row: `prod.stock -= qty` and
`prod.total_purchased = (prod.total_purchased or 0) + qty` when the primary
key matches, identity otherwise. -/
def stepProd (pid : Nat) (q : Int) (p : Product) : Product :=
  if p.id == pid then
    { p with stock := p.stock - q, total_purchased := some (p.total_purchased.getD 0 + q) }
  else p

/-- One committed reservation line applied to the product table (ids are
unique primary keys, so this touches exactly the reserved row). -/
def updateProd (ps : List Product) (pid : Nat) (q : Int) : List Product :=
  ps.map (stepProd pid q)

/-- The commit loop's stock effect over all reserved rows. -/
def applyReserve (ps : List Product) (rows : List (Nat × Int)) : List Product :=
  rows.foldl (fun acc r => updateProd acc r.1 r.2) ps

/-- Bundle id template `f"{ts}-{uid}-{suffix}"`. -/
def mkBundleId (now uid : Nat) (suffix : String) : String :=
  toString now ++ "-" ++ toString uid ++ "-" ++ suffix

/-- The order rows the commit loop creates: one `Pending` line per reserved
row, all assigned to the one annachi and carrying the one bundle id, with
ids assigned consecutively by the database at commit. -/
def mkOrders (startId uid annId : Nat) (b : String) : List (Nat × Int) → List Order
  | [] => []
  | (pid, q) :: rest =>
    { id := startId, consumer_id := uid, product_id := pid, quantity := q,
      status := "Pending", assigned_annachi_id := some annId, bundle_id := some b } ::
      mkOrders (startId + 1) uid annId b rest

/-- The `new_order` event payload broadcast per created line (the nested
product fields are resolved through the order's product row). -/
def newOrderEvent (prods : List Product) (o : Order) : Event :=
  { type := "new_order"
    owner_id := (prods.find? fun p => p.id == o.product_id).map (·.owner_id)
    consumer_id := some o.consumer_id
    assigned_annachi_id := o.assigned_annachi_id
    order_id := some o.id
    status := some o.status
    bundle_id := o.bundle_id }

/-- Outcome of `POST /orders/create_auto`. -/
inductive AutoResp where
  | onlyConsumers
  | emptyCart
  | invalidItem (it : ItemIn)
  | noAnnachi
  | conflict (annId : Nat) (annPincode : Option String) (dist : Option ℚ)
      (unavailable : List UnavailEntry)
  | created (ids : List Nat) (bundleId : String) (annId : Nat) (dist : Option ℚ)
deriving DecidableEq

/-- The commit block of `orders_create_auto` (the all-available branch):
generate one bundle id, create one `Pending` line per reserved row assigned
to the one annachi, decrement stock and bump `total_purchased`, then
broadcast one `new_order` event per created line. -/
def commitAuto (st : AppState) (now : Nat) (user : User) (ann : User) (dist : Option ℚ)
    (rows : List (Nat × Int)) : AutoResp × AppState :=
  let b := mkBundleId now user.id ("A" ++ toString ann.id)
  let newOrders := mkOrders st.nextOrderId user.id ann.id b rows
  let prods2 := applyReserve st.products rows
  let st1 : AppState :=
    { st with products := prods2, orders := st.orders ++ newOrders,
              nextOrderId := st.nextOrderId + newOrders.length }
  let st2 :=
    { st1 with
      subscribers := broadcastAll st1.subscribers (newOrders.map (newOrderEvent prods2)) }
  (.created (newOrders.map (·.id)) b ann.id dist, st2)

/-- src/app.py `orders_create_auto`: validate every item, pick exactly one
annachi, check availability of every line against that annachi only, and
either 409 with the full unavailable list and untouched state, or commit one
bundle (decrement stock, bump total_purchased, create `Pending` lines) and
broadcast one event per line. -/
def ordersCreateAuto (hav : ℚ → ℚ → ℚ → ℚ → ℚ) (st : AppState) (now : Nat) (user : User)
    (items : List ItemIn) (cLat cLng : Option ℚ) (cPin : Option String) :
    AutoResp × AppState :=
  if user.role ≠ "consumer" then (.onlyConsumers, st)
  else if items.isEmpty then (.emptyCart, st)
  else
    match normalizeItems items with
    | .error it => (.invalidItem it, st)
    | .ok norm =>
      match selectBestAnnachi hav st.users cPin cLat cLng with
      | (none, _) => (.noAnnachi, st)
      | (some ann, dist) =>
        if (checkItems st.products ann.id ann.pincode norm).1 ≠ [] then
          (.conflict ann.id ann.pincode dist (checkItems st.products ann.id ann.pincode norm).1,
            st)
        else commitAuto st now user ann dist (checkItems st.products ann.id ann.pincode norm).2

/-- A raw line item of the legacy `/orders/create` payload. -/
structure LegacyItem where
  product_id : Int
  quantity : Option Int
deriving DecidableEq

/-- Failure of a legacy cart line, in source check order. -/
inductive LegacyErr where
  | productNotFound
  | categoryNotAllowed (name : String)
  | badQuantity
  | insufficientStock (name : String)
deriving DecidableEq

/-- Outcome of the legacy `POST /orders/create`. -/
inductive LegacyResp where
  | onlyConsumers
  | emptyCart
  | productNotFound
  | categoryNotAllowed (name : String)
  | badQuantity
  | insufficientStock (name : String)
  | created (ids : List Nat) (bundleIds : List String)
deriving DecidableEq

/-- The legacy per-item loop: each valid line is assigned to its product's
owner and decrements stock as it goes (later duplicates of a product see the
already-decremented stock); any failure aborts the whole request before the
commit, so the session's pending changes are discarded. -/
def legacyLoop (b : String) (uid : Nat) :
    Nat → List Product → List Order → List LegacyItem →
      Except LegacyErr (List Product × List Order)
  | _, prods, acc, [] => .ok (prods, acc)
  | nid, prods, acc, it :: rest =>
    let qty := it.quantity.getD 1
    match prods.find? fun p => (p.id : Int) == it.product_id with
    | none => .error .productNotFound
    | some p =>
      if !(FIXED_CATS.contains (pyLower p.category)) then .error (.categoryNotAllowed p.name)
      else if qty < 1 then .error .badQuantity
      else if p.stock < qty then .error (.insufficientStock p.name)
      else
        legacyLoop b uid (nid + 1) (updateProd prods p.id qty)
          (acc ++ [{ id := nid, consumer_id := uid, product_id := p.id, quantity := qty,
                     status := "Pending", assigned_annachi_id := some p.owner_id,
                     bundle_id := some b }]) rest

/-- Insertion of a string into a sorted list. -/
def insertStr (s : String) : List String → List String
  | [] => [s]
  | t :: ts => if s ≤ t then s :: t :: ts else t :: insertStr s ts

/-- Insertion sort on strings, for `sorted(list({...}))`. -/
def sortStrings : List String → List String
  | [] => []
  | s :: ss => insertStr s (sortStrings ss)

/-- src/app.py `orders_create` (legacy multi-owner cart): one shared bundle
id, per-line assignment to the product's owner. -/
def ordersCreate (st : AppState) (now : Nat) (user : User) (items : List LegacyItem) :
    LegacyResp × AppState :=
  if user.role ≠ "consumer" then (.onlyConsumers, st)
  else if items.isEmpty then (.emptyCart, st)
  else
    let b := mkBundleId now user.id ("legacy")
    match legacyLoop b user.id st.nextOrderId st.products [] items with
    | .error .productNotFound => (.productNotFound, st)
    | .error (.categoryNotAllowed n) => (.categoryNotAllowed n, st)
    | .error .badQuantity => (.badQuantity, st)
    | .error (.insufficientStock n) => (.insufficientStock n, st)
    | .ok (prods2, newOrders) =>
      let st1 : AppState :=
        { st with products := prods2, orders := st.orders ++ newOrders,
                  nextOrderId := st.nextOrderId + newOrders.length }
      let st2 :=
        { st1 with
          subscribers := broadcastAll st1.subscribers (newOrders.map (newOrderEvent prods2)) }
      (.created (newOrders.map (·.id)) (sortStrings (newOrders.filterMap (·.bundle_id)).eraseDups),
        st2)

/-- Outcome of `POST /api/orders` (single-product order). -/
inductive SingleResp where
  | onlyConsumers
  | productNotFound
  | categoryNotAllowed
  | badQuantity
  | insufficientStock
  | created (orderId : Nat) (bundleId : String)
deriving DecidableEq

/-- src/app.py `api_create_order`: one product, one `Pending` line assigned
to the product's owner under a fresh single-item bundle id. -/
def apiCreateOrder (st : AppState) (now : Nat) (user : User) (pid : Option Nat)
    (qty0 : Option Int) : SingleResp × AppState :=
  if user.role ≠ "consumer" then (.onlyConsumers, st)
  else
    match (match pid with
           | none => (none : Option Product)
           | some i => st.products.find? fun p => p.id == i) with
    | none => (.productNotFound, st)
    | some p =>
      if !(FIXED_CATS.contains (pyLower p.category)) then (.categoryNotAllowed, st)
      else if pyIntOr1 qty0 < 1 then (.badQuantity, st)
      else if p.stock < pyIntOr1 qty0 then (.insufficientStock, st)
      else
        let o : Order :=
          { id := st.nextOrderId, consumer_id := user.id, product_id := p.id,
            quantity := pyIntOr1 qty0, status := "Pending",
            assigned_annachi_id := some p.owner_id,
            bundle_id := some (mkBundleId now user.id ("single")) }
        let prods2 := updateProd st.products p.id (pyIntOr1 qty0)
        let st1 : AppState :=
          { st with products := prods2, orders := st.orders ++ [o],
                    nextOrderId := st.nextOrderId + 1 }
        let st2 := { st1 with subscribers := broadcast st1.subscribers (newOrderEvent prods2 o) }
        (.created o.id (mkBundleId now user.id ("single")), st2)

/-- The authorization filter of the bundle path of `annachi_orders_update`:
the order is in the bundle, its product row exists (the query inner-joins
Product), and the caller owns that product or is the assigned annachi. -/
def bundleAuth (prods : List Product) (uid : Nat) (b : String) (o : Order) : Bool :=
  o.bundle_id == some b &&
    match prods.find? fun p => p.id == o.product_id with
    | some p => p.owner_id == uid || o.assigned_annachi_id == some uid
    | none => false

/-- The `status_update` event payload broadcast per touched line. -/
def statusEvent (prods : List Product) (o : Order) : Event :=
  { type := "status_update"
    owner_id := (prods.find? fun p => p.id == o.product_id).map (·.owner_id)
    consumer_id := some o.consumer_id
    assigned_annachi_id := o.assigned_annachi_id
    order_id := some o.id
    status := some o.status
    bundle_id := o.bundle_id }

/-- Outcome of `POST /annachi/orders/update/<oid>`. -/
inductive UpdResp where
  | accessDenied
  | bundleNotFound
  | bundleUpdated (bundleId : String) (status : String)
  | bundleNoStatus (bundleId : String)
  | invalidOrderId
  | orderMissing
  | unauthorized
  | orderUpdated (oid : Nat) (status : String)
  | orderNoStatus
deriving DecidableEq

/-- src/app.py `annachi_orders_update`: a `BUNDLE_`-prefixed id updates every
line of the bundle the caller is authorized for (all of them to the one
target status) and broadcasts per line; a numeric id updates one order.  An
absent or empty status is a no-op. -/
def annachiOrdersUpdate (st : AppState) (user : User) (oid : String)
    (newStatus : Option String) : UpdResp × AppState :=
  if user.role ≠ "annachi" then (.accessDenied, st)
  else if strStartsWith oid ("BUNDLE_") then
    if (st.orders.filter (bundleAuth st.products user.id (strDrop oid 7))).isEmpty then
      (.bundleNotFound, st)
    else
      match newStatus with
      | some s =>
        if s ≠ "" then
          let orders2 := st.orders.map fun o =>
            if bundleAuth st.products user.id (strDrop oid 7) o then { o with status := s }
            else o
          let updatedRows :=
            (st.orders.filter (bundleAuth st.products user.id (strDrop oid 7))).map fun o =>
              { o with status := s }
          let subs2 := broadcastAll st.subscribers (updatedRows.map (statusEvent st.products))
          (.bundleUpdated (strDrop oid 7) s, { st with orders := orders2, subscribers := subs2 })
        else (.bundleNoStatus (strDrop oid 7), st)
      | none => (.bundleNoStatus (strDrop oid 7), st)
  else
    match oid.toInt? with
    | none => (.invalidOrderId, st)
    | some n =>
      match st.orders.find? fun o => (o.id : Int) == n with
      | none => (.orderMissing, st)
      | some o =>
        match st.products.find? fun p => p.id == o.product_id with
        | none => (.unauthorized, st)
        | some p =>
          if p.owner_id ≠ user.id ∧ o.assigned_annachi_id ≠ some user.id then
            (.unauthorized, st)
          else
            match newStatus with
            | some s =>
              if s ≠ "" then
                let orders2 := st.orders.map fun o2 =>
                  if o2.id == o.id then { o2 with status := s } else o2
                let subs2 := broadcast st.subscribers (statusEvent st.products { o with status := s })
                (.orderUpdated o.id s, { st with orders := orders2, subscribers := subs2 })
              else (.orderNoStatus, st)
            | none => (.orderNoStatus, st)

/-- The bundle invariant of the spec's data model: two lines that share a
(non-null) bundle identifier have the same assigned annachi. -/
def BundleInv (orders : List Order) : Prop :=
  ∀ o1 ∈ orders, ∀ o2 ∈ orders,
    o1.bundle_id ≠ none → o1.bundle_id = o2.bundle_id →
      o1.assigned_annachi_id = o2.assigned_annachi_id

instance (orders : List Order) : Decidable (BundleInv orders) :=
  inferInstanceAs (Decidable (∀ o1 ∈ orders, ∀ o2 ∈ orders,
    o1.bundle_id ≠ none → o1.bundle_id = o2.bundle_id →
      o1.assigned_annachi_id = o2.assigned_annachi_id))

/-- Bounds any real haversine distance satisfies: non-negative and far below
the `10**8` finiteness threshold (a great circle of Earth is under 50000 km). -/
def HavBounded (hav : ℚ → ℚ → ℚ → ℚ → ℚ) : Prop :=
  ∀ a b c d : ℚ, 0 ≤ hav a b c d ∧ hav a b c d < FINITE_CAP


/-! ## Order properties of the Python tuple comparisons -/

theorem pairLt_iff {x y : ℚ × Nat} :
    pairLt x y = true ↔ x.1 < y.1 ∨ (x.1 = y.1 ∧ x.2 < y.2) := by
  simp [pairLt]

theorem pairLt_false_iff {x y : ℚ × Nat} :
    pairLt x y = false ↔ y.1 < x.1 ∨ (y.1 = x.1 ∧ y.2 ≤ x.2) := by
  rw [← Bool.not_eq_true, pairLt_iff]
  constructor
  · intro h
    push_neg at h
    rcases eq_or_lt_of_le h.1 with h1 | h1
    · exact Or.inr ⟨h1, h.2 h1.symm⟩
    · exact Or.inl h1
  · rintro (h | ⟨h1, h2⟩) hc
    · rcases hc with g | ⟨g1, g2⟩
      · exact lt_asymm h g
      · rw [g1] at h; exact lt_irrefl _ h
    · rcases hc with g | ⟨g1, g2⟩
      · rw [h1] at g; exact lt_irrefl _ g
      · omega

theorem pairLt_irrefl (x : ℚ × Nat) : pairLt x x = false := by
  simp [pairLt]

theorem pairLt_trans {a b c : ℚ × Nat} (h1 : pairLt a b = true) (h2 : pairLt b c = true) :
    pairLt a c = true := by
  rw [pairLt_iff] at h1 h2 ⊢
  rcases h1 with h | ⟨e, h⟩ <;> rcases h2 with g | ⟨f, g⟩
  · exact Or.inl (h.trans g)
  · exact Or.inl (by rw [← f]; exact h)
  · exact Or.inl (by rw [e]; exact g)
  · exact Or.inr ⟨e.trans f, h.trans g⟩

theorem pairLt_nlt_trans {a b c : ℚ × Nat} (h1 : pairLt a b = false) (h2 : pairLt b c = false) :
    pairLt a c = false := by
  rw [pairLt_false_iff] at h1 h2 ⊢
  rcases h1 with h | ⟨e, h⟩ <;> rcases h2 with g | ⟨f, g⟩
  · exact Or.inl (g.trans h)
  · exact Or.inl (by rw [f]; exact h)
  · exact Or.inl (by rw [← e]; exact g)
  · exact Or.inr ⟨f.trans e, g.trans h⟩

theorem keyLt_iff {x y : Nat × ℚ × Nat} :
    keyLt x y = true ↔ x.1 < y.1 ∨ (x.1 = y.1 ∧ pairLt x.2 y.2 = true) := by
  simp [keyLt]

theorem keyLt_false_iff {x y : Nat × ℚ × Nat} :
    keyLt x y = false ↔ y.1 < x.1 ∨ (y.1 = x.1 ∧ pairLt x.2 y.2 = false) := by
  rw [← Bool.not_eq_true, keyLt_iff]
  constructor
  · intro h
    push_neg at h
    rcases eq_or_lt_of_le h.1 with h1 | h1
    · refine Or.inr ⟨h1, ?_⟩
      cases hb : pairLt x.2 y.2
      · rfl
      · exact absurd hb (h.2 h1.symm)
    · exact Or.inl h1
  · rintro (h | ⟨h1, h2⟩) hc
    · rcases hc with g | ⟨g1, g2⟩
      · omega
      · omega
    · rcases hc with g | ⟨g1, g2⟩
      · omega
      · rw [h2] at g2; exact Bool.false_ne_true g2

theorem keyLt_irrefl (x : Nat × ℚ × Nat) : keyLt x x = false := by
  simp [keyLt, pairLt]

theorem keyLt_trans {a b c : Nat × ℚ × Nat} (h1 : keyLt a b = true) (h2 : keyLt b c = true) :
    keyLt a c = true := by
  rw [keyLt_iff] at h1 h2 ⊢
  rcases h1 with h | ⟨e, h⟩ <;> rcases h2 with g | ⟨f, g⟩
  · exact Or.inl (h.trans g)
  · exact Or.inl (by rw [← f]; exact h)
  · exact Or.inl (by rw [e]; exact g)
  · exact Or.inr ⟨e.trans f, pairLt_trans h g⟩

theorem keyLt_nlt_trans {a b c : Nat × ℚ × Nat} (h1 : keyLt a b = false)
    (h2 : keyLt b c = false) : keyLt a c = false := by
  rw [keyLt_false_iff] at h1 h2 ⊢
  rcases h1 with h | ⟨e, h⟩ <;> rcases h2 with g | ⟨f, g⟩
  · exact Or.inl (g.trans h)
  · exact Or.inl (by rw [f]; exact h)
  · exact Or.inl (by rw [← e]; exact g)
  · exact Or.inr ⟨f.trans e, pairLt_nlt_trans h g⟩

/-! ## `ranked[0]` of a stable sort: the first minimal element -/

theorem pickMin_cons {α : Type} (lt : α → α → Bool) (x a : α) (as : List α) :
    pickMin lt x (a :: as) = pickMin lt (if lt a x then a else x) as := rfl

theorem pickMin_mem {α : Type} (lt : α → α → Bool) :
    ∀ (xs : List α) (x : α), pickMin lt x xs = x ∨ pickMin lt x xs ∈ xs := by
  intro xs
  induction xs with
  | nil => intro x; exact Or.inl rfl
  | cons a as ih =>
    intro x
    rw [pickMin_cons]
    by_cases hax : lt a x = true
    · rw [if_pos hax]
      rcases ih a with h | h
      · refine Or.inr ?_
        rw [h]
        exact List.mem_cons_self a as
      · exact Or.inr (List.mem_cons_of_mem a h)
    · rw [if_neg hax]
      rcases ih x with h | h
      · exact Or.inl h
      · exact Or.inr (List.mem_cons_of_mem a h)

theorem pickMin_not_lt {α : Type} (lt : α → α → Bool) (hirr : ∀ a, lt a a = false)
    (htr : ∀ {a b c}, lt a b = true → lt b c = true → lt a c = true)
    (hnt : ∀ {a b c}, lt a b = false → lt b c = false → lt a c = false) :
    ∀ (xs : List α) (x y : α), y = x ∨ y ∈ xs → lt y (pickMin lt x xs) = false := by
  intro xs
  induction xs with
  | nil =>
    rintro x y hy
    rcases hy with hyx | h
    · rw [hyx]; exact hirr x
    · exact absurd h (List.not_mem_nil y)
  | cons a as ih =>
    intro x y hy
    rw [pickMin_cons]
    by_cases hax : lt a x = true
    · rw [if_pos hax]
      rcases hy with hyx | hy
      · have h1 : lt a (pickMin lt a as) = false := ih a a (Or.inl rfl)
        rw [hyx]
        cases hxp : lt x (pickMin lt a as) with
        | false => rfl
        | true => rw [htr hax hxp] at h1; exact absurd h1 (by simp)
      · rcases List.mem_cons.mp hy with hye | hmem
        · rw [hye]; exact ih a a (Or.inl rfl)
        · exact ih a y (Or.inr hmem)
    · have hax' : lt a x = false := by
        cases hb : lt a x
        · rfl
        · exact absurd hb hax
      rw [if_neg hax]
      rcases hy with hyx | hy
      · rw [hyx]; exact ih x x (Or.inl rfl)
      · rcases List.mem_cons.mp hy with hye | hmem
        · rw [hye]; exact hnt hax' (ih x x (Or.inl rfl))
        · exact ih x y (Or.inr hmem)

theorem argminBy_mem {α : Type} (lt : α → α → Bool) {l : List α} {m : α}
    (h : argminBy lt l = some m) : m ∈ l := by
  cases l with
  | nil => simp [argminBy] at h
  | cons x xs =>
    simp only [argminBy, Option.some.injEq] at h
    rcases pickMin_mem lt xs x with h1 | h1
    · rw [← h, h1]; exact List.mem_cons_self x xs
    · rw [← h]; exact List.mem_cons_of_mem x h1

theorem argminBy_eq_some {α : Type} (lt : α → α → Bool) {l : List α} (h : l ≠ []) :
    ∃ m, argminBy lt l = some m := by
  cases l with
  | nil => exact absurd rfl h
  | cons x xs => exact ⟨pickMin lt x xs, rfl⟩

theorem argminBy_not_lt {α : Type} (lt : α → α → Bool) (hirr : ∀ a, lt a a = false)
    (htr : ∀ {a b c}, lt a b = true → lt b c = true → lt a c = true)
    (hnt : ∀ {a b c}, lt a b = false → lt b c = false → lt a c = false)
    {l : List α} {m : α} (h : argminBy lt l = some m) : ∀ y ∈ l, lt y m = false := by
  cases l with
  | nil => simp [argminBy] at h
  | cons x xs =>
    simp only [argminBy, Option.some.injEq] at h
    intro y hy
    rw [← h]
    rcases List.mem_cons.mp hy with hye | hmem
    · exact pickMin_not_lt lt hirr @htr @hnt xs x y (Or.inl hye)
    · exact pickMin_not_lt lt hirr @htr @hnt xs x y (Or.inr hmem)

/-! ## Structural lemmas about `selectBestAnnachi` -/

theorem selPool_of_annsAll_nil {users : List User} {cpin : Option String}
    (h : annsAll users = []) : selPool users cpin = [] := by
  have h1 : phase1Pool users cpin = [] := by
    unfold phase1Pool
    cases cpin with
    | none => rfl
    | some s =>
      by_cases hs : s = ""
      · simp [hs]
      · simp [hs, h]
  simp [selPool, h1, h]

theorem selPool_ne_nil {users : List User} {cpin : Option String}
    (h : annsAll users ≠ []) : selPool users cpin ≠ [] := by
  unfold selPool
  by_cases h1 : (phase1Pool users cpin).isEmpty
  · simpa [h1]
  · simpa [h1] using (by simpa [List.isEmpty_iff] using h1)

theorem annsAll_nonempty_of_rank {hav : ℚ → ℚ → ℚ → ℚ → ℚ} {users : List User}
    {cpin : Option String} {clat clng : Option ℚ} {ch0 : User}
    (hr : rankPool hav clat clng (selPool users cpin) = some ch0) :
    (annsAll users).isEmpty = false := by
  rw [List.isEmpty_eq_false_iff_exists_mem]
  by_contra h
  push_neg at h
  have h0 : annsAll users = [] := List.eq_nil_iff_forall_not_mem.mpr h
  rw [selPool_of_annsAll_nil h0] at hr
  simp [rankPool, argminBy] at hr

theorem select_eq_of_rank {hav : ℚ → ℚ → ℚ → ℚ → ℚ} {users : List User}
    {cpin : Option String} {clat clng : Option ℚ} {ch0 : User}
    (hr : rankPool hav clat clng (selPool users cpin) = some ch0) :
    selectBestAnnachi hav users cpin clat clng =
      (some (chooseAfterRank hav (annsAll users) clat clng ch0),
        distOut hav clat clng (chooseAfterRank hav (annsAll users) clat clng ch0)) := by
  unfold selectBestAnnachi
  rw [annsAll_nonempty_of_rank hr, hr]
  simp

theorem select_fst_cases {hav : ℚ → ℚ → ℚ → ℚ → ℚ} {users : List User}
    {cpin : Option String} {clat clng : Option ℚ} {ch : User}
    (h : (selectBestAnnachi hav users cpin clat clng).1 = some ch) :
    ∃ ch0, rankPool hav clat clng (selPool users cpin) = some ch0 ∧
      ch = chooseAfterRank hav (annsAll users) clat clng ch0 := by
  by_cases hne : (annsAll users).isEmpty
  · unfold selectBestAnnachi at h
    rw [hne] at h
    simp at h
  · have hnil : annsAll users ≠ [] := by
      intro hx; exact hne (by simp [hx])
    obtain ⟨m, hm⟩ := argminBy_eq_some
      (fun a b => keyLt (score hav clat clng a) (score hav clat clng b))
      (selPool_ne_nil hnil)
    have he := select_eq_of_rank hm
    rw [he] at h
    simp only [Option.some.injEq] at h
    exact ⟨m, hm, h.symm⟩

theorem select_snd_eq {hav : ℚ → ℚ → ℚ → ℚ → ℚ} {users : List User}
    {cpin : Option String} {clat clng : Option ℚ} {ch : User}
    (h : (selectBestAnnachi hav users cpin clat clng).1 = some ch) :
    (selectBestAnnachi hav users cpin clat clng).2 = distOut hav clat clng ch := by
  by_cases hne : (annsAll users).isEmpty
  · unfold selectBestAnnachi at h
    rw [hne] at h
    simp at h
  · have hnil : annsAll users ≠ [] := by
      intro hx; exact hne (by simp [hx])
    obtain ⟨m, hm⟩ := argminBy_eq_some
      (fun a b => keyLt (score hav clat clng a) (score hav clat clng b))
      (selPool_ne_nil hnil)
    have he := select_eq_of_rank hm
    rw [he] at h ⊢
    simp only [Option.some.injEq] at h
    rw [h]

theorem select_none_iff {hav : ℚ → ℚ → ℚ → ℚ → ℚ} {users : List User}
    {cpin : Option String} {clat clng : Option ℚ} :
    (selectBestAnnachi hav users cpin clat clng).1 = none ↔ annsAll users = [] := by
  constructor
  · intro h
    by_contra hnil
    obtain ⟨m, hm⟩ := argminBy_eq_some
      (fun a b => keyLt (score hav clat clng a) (score hav clat clng b))
      (selPool_ne_nil hnil)
    rw [select_eq_of_rank hm] at h
    simp at h
  · intro h
    unfold selectBestAnnachi
    simp [h]


/-! ## Distance and score facts -/

theorem distanceKm_eq_of_coords {hav : ℚ → ℚ → ℚ → ℚ → ℚ} {la lo : ℚ} {a : User}
    {sa so : ℚ} (h1 : a.shop_lat = some sa) (h2 : a.shop_lng = some so) :
    distanceKm hav (some la) (some lo) a = hav la lo sa so := by
  simp [distanceKm, h1, h2]

theorem SENTINEL_not_lt_cap : ¬ SENTINEL < FINITE_CAP := by
  unfold SENTINEL FINITE_CAP
  norm_num

theorem distanceKm_lt_cap {hav : ℚ → ℚ → ℚ → ℚ → ℚ} {la lo : ℚ} {a : User}
    (h : distanceKm hav (some la) (some lo) a < FINITE_CAP) :
    ∃ sa so, a.shop_lat = some sa ∧ a.shop_lng = some so ∧
      distanceKm hav (some la) (some lo) a = hav la lo sa so := by
  rcases hsa : a.shop_lat with _ | sa
  · rw [show distanceKm hav (some la) (some lo) a = SENTINEL by simp [distanceKm, hsa]] at h
    exact absurd h SENTINEL_not_lt_cap
  · rcases hso : a.shop_lng with _ | so
    · rw [show distanceKm hav (some la) (some lo) a = SENTINEL by simp [distanceKm, hsa, hso]]
        at h
      exact absurd h SENTINEL_not_lt_cap
    · exact ⟨sa, so, rfl, rfl, distanceKm_eq_of_coords hsa hso⟩

theorem mem_inradPool_iff {hav : ℚ → ℚ → ℚ → ℚ → ℚ} {la lo : ℚ} {anns : List User}
    {a : User} :
    a ∈ inradPool hav la lo anns ↔
      a ∈ anns ∧ distanceKm hav (some la) (some lo) a < FINITE_CAP ∧
        a.service_radius_km.isSome = true ∧
        distanceKm hav (some la) (some lo) a ≤ ((a.service_radius_km.getD 0 : Int) : ℚ) := by
  unfold inradPool
  rw [List.mem_filter]
  simp [and_assoc]

/-- The escape-valve guarantee: whenever some annachi of the pool has
coordinates, an int radius, and haversine distance within that radius, the
annachi `fallbackChoice` settles on is never at a finite distance beyond its
own radius. -/
theorem fallbackChoice_in_radius {hav : ℚ → ℚ → ℚ → ℚ → ℚ} (hb : HavBounded hav)
    {anns : List User} {la lo : ℚ} {p : User} (hp : p ∈ anns) {pla plo : ℚ} {r : Int}
    (h1 : p.shop_lat = some pla) (h2 : p.shop_lng = some plo)
    (h3 : p.service_radius_km = some r) (h4 : hav la lo pla plo ≤ (r : ℚ)) (ch0 : User)
    {cla clo : ℚ} {rr : Int}
    (g1 : (fallbackChoice hav anns la lo ch0).shop_lat = some cla)
    (g2 : (fallbackChoice hav anns la lo ch0).shop_lng = some clo)
    (g3 : (fallbackChoice hav anns la lo ch0).service_radius_km = some rr) :
    hav la lo cla clo ≤ (rr : ℚ) := by
  have hpin : p ∈ inradPool hav la lo anns := by
    rw [mem_inradPool_iff]
    refine ⟨hp, ?_, by simp [h3], ?_⟩
    · rw [distanceKm_eq_of_coords h1 h2]
      exact (hb la lo pla plo).2
    · rw [distanceKm_eq_of_coords h1 h2, h3]
      simpa using h4
  have hne : inradPool hav la lo anns ≠ [] := by
    intro h0
    rw [h0] at hpin
    exact absurd hpin (List.not_mem_nil p)
  rcases hso : ch0.service_radius_km with _ | r0
  · simp only [fallbackChoice, hso] at g1 g2 g3
    exact absurd g3 (by simp)
  · by_cases hcond : distanceKm hav (some la) (some lo) ch0 < FINITE_CAP ∧
      ((r0 : ℚ) < distanceKm hav (some la) (some lo) ch0)
    · obtain ⟨m, hm⟩ := argminBy_eq_some (fun a b =>
        pairLt (distanceKm hav (some la) (some lo) a, a.id)
          (distanceKm hav (some la) (some lo) b, b.id)) hne
      simp only [fallbackChoice, hso, if_pos hcond, hm] at g1 g2 g3
      have hmmem := argminBy_mem _ hm
      rw [mem_inradPool_iff] at hmmem
      obtain ⟨-, hmcap, -, hmle⟩ := hmmem
      rw [distanceKm_eq_of_coords g1 g2] at hmle
      rw [g3] at hmle
      simpa using hmle
    · simp only [fallbackChoice, hso, if_neg hcond] at g1 g2 g3
      push_neg at hcond
      have hd : distanceKm hav (some la) (some lo) ch0 = hav la lo cla clo :=
        distanceKm_eq_of_coords g1 g2
      have hcap : distanceKm hav (some la) (some lo) ch0 < FINITE_CAP := by
        rw [hd]; exact (hb la lo cla clo).2
      have hle := hcond hcap
      rw [hd] at hle
      obtain rfl : r0 = rr := by simpa using g3
      exact hle


/-! ## Claim C3: in-radius guarantee of provider selection -/

/-- C3 (confirmed).  For every pool and every request with consumer
coordinates: if some annachi has coordinates, an integer service radius, and
haversine distance within that radius, then the annachi `select_best_annachi`
returns is never one whose (finite) distance from the consumer exceeds its
own service radius. -/
theorem c3_in_radius_guarantee (hav : ℚ → ℚ → ℚ → ℚ → ℚ) (hb : HavBounded hav)
    (users : List User) (cpin : Option String) (la lo : ℚ) (p : User)
    (hp : p ∈ users) (hrole : p.role = "annachi") (pla plo : ℚ) (r : Int)
    (h1 : p.shop_lat = some pla) (h2 : p.shop_lng = some plo)
    (h3 : p.service_radius_km = some r) (h4 : hav la lo pla plo ≤ (r : ℚ))
    (ch : User) (hch : (selectBestAnnachi hav users cpin (some la) (some lo)).1 = some ch)
    (cla clo : ℚ) (rr : Int) (g1 : ch.shop_lat = some cla) (g2 : ch.shop_lng = some clo)
    (g3 : ch.service_radius_km = some rr) :
    hav la lo cla clo ≤ (rr : ℚ) := by
  obtain ⟨ch0, hrank, hcheq⟩ := select_fst_cases hch
  have hpa : p ∈ annsAll users := List.mem_filter.mpr ⟨hp, by simp [hrole]⟩
  have hfb : ch = fallbackChoice hav (annsAll users) la lo ch0 := by
    simpa [chooseAfterRank] using hcheq
  rw [hfb] at g1 g2 g3
  exact fallbackChoice_in_radius hb hpa h1 h2 h3 h4 ch0 g1 g2 g3

/-- Constant zero distance function used for concrete witnesses. -/
def hav0 : ℚ → ℚ → ℚ → ℚ → ℚ := fun _ _ _ _ => 0

theorem hav0_bounded : HavBounded hav0 := by
  intro a b c d
  constructor
  · exact le_refl 0
  · unfold hav0 FINITE_CAP
    norm_num

/-- Witness fixture: an annachi with coordinates and radius 5. -/
def annGeo : User :=
  { id := 1, email := "g@x", role := "annachi", shop_lat := some 0, shop_lng := some 0,
    pincode := some "600001", service_radius_km := some 5 }

theorem c3_in_radius_guarantee_witness :
    HavBounded hav0 ∧
      (selectBestAnnachi hav0 [annGeo] none (some 0) (some 0)).1 = some annGeo ∧
      hav0 0 0 0 0 ≤ ((5 : Int) : ℚ) :=
  ⟨hav0_bounded, by decide,
    c3_in_radius_guarantee hav0 hav0_bounded [annGeo] none 0 0 annGeo (by decide) (by decide)
      0 0 5 (by decide) (by decide) (by decide) (by decide) annGeo (by decide) 0 0 5
      (by decide) (by decide) (by decide)⟩

/-! ## Claim C4: postal-code preference (corrected for an empty pincode) -/

/-- Witness fixture: an annachi whose stored pincode is the letter X. -/
def annX : User :=
  { id := 1, email := "x@x", role := "annachi", shop_lat := none, shop_lng := none,
    pincode := some "X", service_radius_km := some 5 }

/-- Witness fixture: an annachi whose stored pincode is the empty string. -/
def annE : User :=
  { id := 2, email := "e@x", role := "annachi", shop_lat := none, shop_lng := none,
    pincode := some "", service_radius_km := some 5 }

/-- C4 counterexample.  With a supplied empty postal code, annachi `annE`
matches it exactly (both trim to the empty string) and the radius is
unenforceable (no GPS), yet `select_best_annachi` returns `annX`, whose
postal code does not match: Python's `if consumer_pincode:` treats the empty
string as absent and skips the postal-preference phase entirely. -/
theorem c4_postal_preference_cex :
    (selectBestAnnachi hav0 [annX, annE] (some "") none none).1 = some annX ∧
      annE.role = "annachi" ∧ pyStrip (annE.pincode.getD "") = pyStrip "" ∧
      pyStrip (annX.pincode.getD "") ≠ pyStrip "" := by
  decide

/-- C4 (corrected).  Provided the request's postal code is a non-empty
string: if some annachi's stored postal code equals it after trimming and
that annachi is within its own radius (or the radius is unenforceable
because a consumer coordinate is absent), then the selector returns an
annachi whose stored postal code matches the request's, regardless of raw
distance. -/
theorem c4_postal_preference_amended (hav : ℚ → ℚ → ℚ → ℚ → ℚ) (hb : HavBounded hav)
    (users : List User) (s : String) (hs : s ≠ "") (clat clng : Option ℚ) (p : User)
    (hp : p ∈ users) (hrole : p.role = "annachi")
    (hmatch : pyStrip (p.pincode.getD "") = pyStrip s)
    (hcase : (∃ la lo pla plo, ∃ r : Int, clat = some la ∧ clng = some lo ∧
        p.shop_lat = some pla ∧ p.shop_lng = some plo ∧ p.service_radius_km = some r ∧
        hav la lo pla plo ≤ (r : ℚ)) ∨ clat = none ∨ clng = none) :
    ∃ ch, (selectBestAnnachi hav users (some s) clat clng).1 = some ch ∧
      pyStrip (ch.pincode.getD "") = pyStrip s := by
  have hpa : p ∈ annsAll users := List.mem_filter.mpr ⟨hp, by simp [hrole]⟩
  have hp1 : p ∈ phase1Pool users (some s) := by
    simp only [phase1Pool]
    rw [if_neg hs]
    exact List.mem_filter.mpr ⟨hpa, by simp [hmatch]⟩
  have hp1ne : (phase1Pool users (some s)).isEmpty = false := by
    rw [List.isEmpty_eq_false_iff_exists_mem]
    exact ⟨p, hp1⟩
  have hsel : selPool users (some s) = phase1Pool users (some s) := by
    simp only [selPool]
    rw [hp1ne]
    simp
  have hselne : selPool users (some s) ≠ [] := by
    rw [hsel]
    intro h0
    rw [h0] at hp1
    exact absurd hp1 (List.not_mem_nil p)
  obtain ⟨ch0, hrank⟩ := argminBy_eq_some
    (fun a b => keyLt (score hav clat clng a) (score hav clat clng b)) hselne
  have hrank' : rankPool hav clat clng (selPool users (some s)) = some ch0 := hrank
  have hch0mem : ch0 ∈ selPool users (some s) := argminBy_mem _ hrank
  rw [hsel] at hch0mem
  have hch0match : pyStrip (ch0.pincode.getD "") = pyStrip s := by
    simp only [phase1Pool] at hch0mem
    rw [if_neg hs] at hch0mem
    have hm2 := (List.mem_filter.mp hch0mem).2
    simpa using hm2
  have hse := select_eq_of_rank hrank'
  refine ⟨chooseAfterRank hav (annsAll users) clat clng ch0, by rw [hse], ?_⟩
  rcases hcase with ⟨la, lo, pla, plo, r, hla, hlo, hpla, hplo, hr, hin⟩ | hnone | hnone
  · subst hla
    subst hlo
    have hmin := argminBy_not_lt
      (fun a b => keyLt (score hav (some la) (some lo) a) (score hav (some la) (some lo) b))
      (fun a => keyLt_irrefl _) (fun h1 h2 => keyLt_trans h1 h2)
      (fun h1 h2 => keyLt_nlt_trans h1 h2) hrank p (by rw [hsel]; exact hp1)
    have hdp : distanceKm hav (some la) (some lo) p = hav la lo pla plo :=
      distanceKm_eq_of_coords hpla hplo
    have hscorep : score hav (some la) (some lo) p = (0, hav la lo pla plo, p.id) := by
      simp only [score, hr]
      rw [if_neg, hdp]
      rw [hdp]
      rintro ⟨-, hnle⟩
      exact hnle hin
    rw [keyLt_false_iff, hscorep] at hmin
    rcases hmin with hlt | ⟨hflag, hpair⟩
    · simp at hlt
    · rw [pairLt_false_iff] at hpair
      have hd0le : (score hav (some la) (some lo) ch0).2.1 ≤ hav la lo pla plo := by
        rcases hpair with h | ⟨h, -⟩
        · exact le_of_lt (by simpa using h)
        · exact le_of_eq (by simpa using h)
      rcases hr0 : ch0.service_radius_km with _ | r0
      · simp only [chooseAfterRank]
        rw [show fallbackChoice hav (annsAll users) la lo ch0 = ch0 by
          simp [fallbackChoice, hr0]]
        exact hch0match
      · by_cases hflag1 : distanceKm hav (some la) (some lo) ch0 < FINITE_CAP ∧
            ¬ distanceKm hav (some la) (some lo) ch0 ≤ (r0 : ℚ)
        · have h1 : (score hav (some la) (some lo) ch0).1 = 1 := by
            simp only [score, hr0]
            rw [if_pos hflag1]
          rw [h1] at hflag
          exact absurd hflag one_ne_zero
        · have hsc : score hav (some la) (some lo) ch0 =
              (0, distanceKm hav (some la) (some lo) ch0, ch0.id) := by
            simp only [score, hr0]
            rw [if_neg hflag1]
          rw [hsc] at hd0le
          have hd0cap : distanceKm hav (some la) (some lo) ch0 < FINITE_CAP :=
            lt_of_le_of_lt (by simpa using hd0le) (hb la lo pla plo).2
          push_neg at hflag1
          have hd0r : distanceKm hav (some la) (some lo) ch0 ≤ (r0 : ℚ) := hflag1 hd0cap
          simp only [chooseAfterRank]
          rw [show fallbackChoice hav (annsAll users) la lo ch0 = ch0 by
            simp only [fallbackChoice, hr0]
            rw [if_neg]
            rintro ⟨-, hgt⟩
            exact absurd hd0r (not_le.mpr hgt)]
          exact hch0match
  · rw [hnone]
    simpa [chooseAfterRank] using hch0match
  · rw [hnone]
    rcases clat with _ | la
    · simpa [chooseAfterRank] using hch0match
    · simpa [chooseAfterRank] using hch0match

theorem c4_postal_preference_amended_witness :
    HavBounded hav0 ∧ ("X" : String) ≠ "" ∧ pyStrip (annX.pincode.getD "") = pyStrip "X" ∧
      (∃ ch, (selectBestAnnachi hav0 [annX, annE] (some "X") none none).1 = some ch ∧
        pyStrip (ch.pincode.getD "") = pyStrip "X") :=
  ⟨hav0_bounded, by decide, by decide,
    c4_postal_preference_amended hav0 hav0_bounded [annX, annE] "X" (by decide) none none
      annX (by decide) (by decide) (by decide) (Or.inr (Or.inl rfl))⟩

/-! ## Claim C10: totality of the selector and shape of the distance -/

/-- Claim-side characterization of the accompanying distance: present (and
rounded to three decimals) exactly when both the consumer and the chosen
annachi have coordinates. -/
def distSpec (hav : ℚ → ℚ → ℚ → ℚ → ℚ) (clat clng : Option ℚ) (ch : User) : Option ℚ :=
  match clat, clng, ch.shop_lat, ch.shop_lng with
  | some la, some lo, some sa, some so => some (round3 (hav la lo sa so))
  | _, _, _, _ => none

/-- C10 (confirmed).  `select_best_annachi` returns no annachi exactly when
no user has role annachi; otherwise it returns one, and the accompanying
distance is present (rounded to three decimals) exactly when both consumer
and chosen coordinates exist. -/
theorem c10_selector_totality (hav : ℚ → ℚ → ℚ → ℚ → ℚ) (hb : HavBounded hav)
    (users : List User) (cpin : Option String) (clat clng : Option ℚ) :
    ((selectBestAnnachi hav users cpin clat clng).1 = none ↔ annsAll users = []) ∧
      ∀ ch, (selectBestAnnachi hav users cpin clat clng).1 = some ch →
        (selectBestAnnachi hav users cpin clat clng).2 = distSpec hav clat clng ch := by
  refine ⟨select_none_iff, ?_⟩
  intro ch hch
  rw [select_snd_eq hch]
  cases clat with
  | none => rfl
  | some la =>
    cases clng with
    | none => rfl
    | some lo =>
      rcases hsa : ch.shop_lat with _ | sa
      · have hdd : distanceKm hav (some la) (some lo) ch = SENTINEL := by
          simp [distanceKm, hsa]
        simp only [distOut, distSpec, hdd, hsa]
        rw [if_neg SENTINEL_not_lt_cap]
      · rcases hso : ch.shop_lng with _ | so
        · have hdd : distanceKm hav (some la) (some lo) ch = SENTINEL := by
            simp [distanceKm, hsa, hso]
          simp only [distOut, distSpec, hdd, hsa, hso]
          rw [if_neg SENTINEL_not_lt_cap]
        · have hdd : distanceKm hav (some la) (some lo) ch = hav la lo sa so :=
            distanceKm_eq_of_coords hsa hso
          simp only [distOut, distSpec, hdd, hsa, hso]
          rw [if_pos (hb la lo sa so).2]

theorem c10_selector_totality_witness :
    HavBounded hav0 ∧
      (((selectBestAnnachi hav0 [annX] none none none).1 = none ↔ annsAll [annX] = []) ∧
        ∀ ch, (selectBestAnnachi hav0 [annX] none none none).1 = some ch →
          (selectBestAnnachi hav0 [annX] none none none).2 = distSpec hav0 none none ch) :=
  ⟨hav0_bounded, c10_selector_totality hav0 hav0_bounded [annX] none none none⟩


/-! ## Normalization and availability lemmas -/

/-- Error projection of an `Except`. -/
def theErr {α β : Type} : Except α β → Option α
  | .error e => some e
  | .ok _ => none

theorem normalizeItems_err_eq :
    ∀ items : List ItemIn, theErr (normalizeItems items) = items.find? isBadItem := by
  intro items
  induction items with
  | nil => rfl
  | cons it rest ih =>
    by_cases hb : isBadItem it = true
    · simp only [normalizeItems, if_pos hb, List.find?_cons_of_pos _ hb]
      rfl
    · have hb' : isBadItem it = false := by
        cases h : isBadItem it
        · rfl
        · exact absurd h hb
      simp only [normalizeItems, if_neg hb, List.find?_cons_of_neg _ hb]
      rw [← ih]
      cases h : normalizeItems rest <;> rfl

theorem normalizeItems_error_iff {items : List ItemIn} {it : ItemIn} :
    normalizeItems items = .error it ↔ items.find? isBadItem = some it := by
  rw [← normalizeItems_err_eq]
  cases h : normalizeItems items <;> simp [theErr]

theorem normalizeItems_ok_map {items : List ItemIn} {norm : List NormItem}
    (h : normalizeItems items = .ok norm) : norm = items.map normItem := by
  induction items generalizing norm with
  | nil => simp only [normalizeItems] at h; injection h with h; rw [← h]; rfl
  | cons it rest ih =>
    simp only [normalizeItems] at h
    by_cases hb : isBadItem it = true
    · rw [if_pos hb] at h; cases h
    · rw [if_neg hb] at h
      cases hr : normalizeItems rest with
      | error e => rw [hr] at h; cases h
      | ok ns =>
        rw [hr] at h
        injection h with h
        rw [← h, List.map_cons, ih hr]

theorem checkItems_fst_eq (prods : List Product) (annId : Nat) (annPin : Option String) :
    ∀ l : List NormItem,
      (checkItems prods annId annPin l).1 = l.filterMap (itemReason prods annId annPin) := by
  intro l
  induction l with
  | nil => rfl
  | cons n rest ih =>
    simp only [checkItems, List.filterMap_cons]
    cases hf : findProd prods annId annPin n with
    | none =>
      simp only [itemReason, hf]
      rw [← ih]
    | some p =>
      by_cases hs : p.stock < n.qty
      · simp only [itemReason, hf, if_pos hs]
        rw [← ih]
      · simp only [itemReason, hf, if_neg hs]
        rw [← ih]

theorem itemReason_none_iff {prods : List Product} {annId : Nat} {annPin : Option String}
    {n : NormItem} :
    itemReason prods annId annPin n = none ↔
      ∃ p, findProd prods annId annPin n = some p ∧ ¬ p.stock < n.qty := by
  unfold itemReason
  cases hf : findProd prods annId annPin n with
  | none => simp
  | some p =>
    by_cases hs : p.stock < n.qty
    · simp [if_pos hs, hs]
    · simp only [if_neg hs, hs]
      simp [hs]
      omega

theorem checkItems_snd_forall2 (prods : List Product) (annId : Nat) (annPin : Option String) :
    ∀ l : List NormItem, (∀ n ∈ l, itemReason prods annId annPin n = none) →
      List.Forall₂ (fun n pr => ∃ p, findProd prods annId annPin n = some p ∧
        pr = (p.id, n.qty)) l (checkItems prods annId annPin l).2 := by
  intro l
  induction l with
  | nil => intro _; exact List.Forall₂.nil
  | cons n rest ih =>
    intro h
    obtain ⟨p, hp, hs⟩ := itemReason_none_iff.mp (h n (List.mem_cons_self n rest))
    have hrest := ih fun m hm => h m (List.mem_cons_of_mem n hm)
    simp only [checkItems, hp, if_neg hs]
    exact List.Forall₂.cons ⟨p, hp, rfl⟩ hrest

/-! ## Claim C6: pre-selection item validation (corrected: quantity 0) -/

/-- Witness fixture: the empty application state. -/
def stEmpty : AppState :=
  { users := [], products := [], orders := [], subscribers := [], nextOrderId := 1 }

/-- Witness fixture: a consumer. -/
def consumer0 : User :=
  { id := 5, email := "c@x", role := "consumer", shop_lat := none, shop_lng := none,
    pincode := none, service_radius_km := none }

/-- A line item carrying an explicit quantity of zero. -/
def itemQty0 : ItemIn :=
  { name := some "Tomato", category := some "vegetables", quantity := some 0 }

/-- C6 counterexample.  An item with quantity 0 (below 1) does not abort the
call with a validation error: `int(it.get("quantity") or 1)` coerces 0 to 1,
so the call proceeds to provider selection (here: 404, no annachi exists)
instead of failing validation. -/
theorem c6_item_validation_cex :
    ordersCreateAuto hav0 stEmpty 1000 consumer0 [itemQty0] none none none =
      (.noAnnachi, stEmpty) ∧ itemQty0.quantity = some 0 ∧ (0 : Int) < 1 := by
  decide

/-- C6 (corrected).  If any item of a non-empty request has an empty trimmed
name, a normalized category outside the fixed closed set, or a quantity that
normalizes below 1 (an explicitly negative quantity; 0 and absent are
coerced to 1), the whole call aborts with a validation error naming the
first such item, for every state — before provider selection — and no state
is mutated. -/
theorem c6_item_validation_amended (hav : ℚ → ℚ → ℚ → ℚ → ℚ) (st : AppState) (now : Nat)
    (user : User) (items : List ItemIn) (cLat cLng : Option ℚ) (cPin : Option String)
    (hrole : user.role = "consumer") (hne : items ≠ [])
    (hbad : ∃ it ∈ items, isBadItem it = true) :
    ∃ it, items.find? isBadItem = some it ∧ isBadItem it = true ∧
      ordersCreateAuto hav st now user items cLat cLng cPin = (.invalidItem it, st) := by
  have hemp : items.isEmpty = false := by
    cases items with
    | nil => exact absurd rfl hne
    | cons a l => rfl
  obtain ⟨it0, hit0, hbad0⟩ := hbad
  have hfs : (items.find? isBadItem).isSome = true := by
    rw [List.find?_isSome]
    exact ⟨it0, hit0, hbad0⟩
  obtain ⟨it, hf⟩ := Option.isSome_iff_exists.mp hfs
  have hbadit : isBadItem it = true := List.find?_some hf
  have herr : normalizeItems items = .error it := normalizeItems_error_iff.mpr hf
  refine ⟨it, hf, hbadit, ?_⟩
  unfold ordersCreateAuto
  rw [if_neg (by simp [hrole]), if_neg (by simp [hemp]), herr]

/-- Witness fixture: an item with an explicitly negative quantity. -/
def itemNeg : ItemIn :=
  { name := some "Rice", category := some "cereals", quantity := some (-3) }

theorem c6_item_validation_amended_witness :
    ("consumer" : String) = "consumer" ∧ ([itemNeg] : List ItemIn) ≠ [] ∧
      (∃ it, ([itemNeg] : List ItemIn).find? isBadItem = some it ∧ isBadItem it = true ∧
        ordersCreateAuto hav0 stEmpty 1000 consumer0 [itemNeg] none none none =
          (.invalidItem it, stEmpty)) :=
  ⟨rfl, by decide,
    c6_item_validation_amended hav0 stEmpty 1000 consumer0 [itemNeg] none none none
      (by decide) (by decide) ⟨itemNeg, by decide, by decide⟩⟩

/-! ## Claim C7: complete problem reporting (corrected: normalization
fails fast) -/

/-- An item with an empty name. -/
def badItemA : ItemIn := { name := some "", category := some "cereals", quantity := some 1 }

/-- An item with a category outside the fixed set. -/
def badItemB : ItemIn := { name := some "Rice", category := some "junk", quantity := some 1 }

/-- C7 counterexample.  With two invalid items in one request, the
normalization loop reports only the first one: the response names
`badItemA` alone even though `badItemB` is also invalid, so Orchestrator
item validation fails fast rather than returning the complete problem set. -/
theorem c7_complete_problems_cex :
    (ordersCreateAuto hav0 stEmpty 1000 consumer0 [badItemA, badItemB] none none none).1 =
      .invalidItem badItemA ∧ isBadItem badItemB = true ∧ badItemA ≠ badItemB := by
  decide

/-- C7 (corrected).  The Ledger availability check does evaluate every line
and returns the complete unavailable set in input order, with the structured
reasons the code emits (`not_found_for_selected_annachi`,
`insufficient_stock (<n> left)`); the Orchestrator's item normalization
instead fails fast, reporting exactly the first invalid item. -/
theorem c7_complete_problems_amended (prods : List Product) (annId : Nat)
    (annPin : Option String) (norm : List NormItem) (items : List ItemIn) :
    (checkItems prods annId annPin norm).1 = norm.filterMap (itemReason prods annId annPin) ∧
      theErr (normalizeItems items) = items.find? isBadItem :=
  ⟨checkItems_fst_eq prods annId annPin norm, normalizeItems_err_eq items⟩

/-! ## Claim C1: all-or-nothing reservation -/

/-- C1 (confirmed).  A bundle placement whose availability check fails for
at least one line returns the 409 conflict carrying the complete unavailable
list and leaves the state — in particular every product's stock and
total_purchased — exactly unchanged. -/
theorem c1_reserve_all_or_nothing (hav : ℚ → ℚ → ℚ → ℚ → ℚ) (st : AppState) (now : Nat)
    (user : User) (items : List ItemIn) (cLat cLng : Option ℚ) (cPin : Option String)
    (norm : List NormItem) (ann : User) (dist : Option ℚ)
    (hrole : user.role = "consumer") (hne : items ≠ [])
    (hnorm : normalizeItems items = .ok norm)
    (hsel : selectBestAnnachi hav st.users cPin cLat cLng = (some ann, dist))
    (hbad : ∃ n ∈ norm, itemReason st.products ann.id ann.pincode n ≠ none) :
    ordersCreateAuto hav st now user items cLat cLng cPin =
      (.conflict ann.id ann.pincode dist
        (norm.filterMap (itemReason st.products ann.id ann.pincode)), st) ∧
      norm.filterMap (itemReason st.products ann.id ann.pincode) ≠ [] := by
  have hemp : items.isEmpty = false := by
    cases items with
    | nil => exact absurd rfl hne
    | cons a l => rfl
  have hfst := checkItems_fst_eq st.products ann.id ann.pincode norm
  have hfne : norm.filterMap (itemReason st.products ann.id ann.pincode) ≠ [] := by
    obtain ⟨n, hn, hr⟩ := hbad
    intro h0
    rw [List.filterMap_eq_nil_iff] at h0
    exact hr (h0 n hn)
  refine ⟨?_, hfne⟩
  unfold ordersCreateAuto
  rw [if_neg (by simp [hrole]), if_neg (by simp [hemp])]
  split
  · rename_i it heq
    rw [hnorm] at heq
    exact absurd heq (by simp)
  · rename_i norm2 heq
    rw [hnorm] at heq
    injection heq with heq2
    subst heq2
    split
    · rename_i dist2 heq2
      rw [hsel] at heq2
      injection heq2 with h1 h2
      exact absurd h1 (by simp)
    · rename_i ann2 dist2 heq2
      rw [hsel] at heq2
      injection heq2 with h1 h2
      injection h1 with h1
      subst h1
      subst h2
      have hcne : (checkItems st.products ann.id ann.pincode norm).1 ≠ [] := by
        rw [hfst]
        exact hfne
      rw [if_pos hcne, hfst]

/-- Witness fixture: the Rice product row of the one shop. -/
def prRice : Product :=
  { id := 1, name := "Rice", category := "cereals", mrp := 10, price := 9, stock := 5,
    pincode := "600001", total_purchased := some 0, owner_id := 1 }

/-- Witness fixture: one annachi with one product in stock. -/
def stShop : AppState :=
  { users := [annGeo], products := [prRice], orders := [], subscribers := [],
    nextOrderId := 1 }

/-- A request line asking for more Rice than is in stock. -/
def itemRice9 : ItemIn :=
  { name := some "Rice", category := some "cereals", quantity := some 9 }

theorem c1_reserve_all_or_nothing_witness :
    normalizeItems [itemRice9] = .ok [normItem itemRice9] ∧
      selectBestAnnachi hav0 stShop.users none none none = (some annGeo, none) ∧
      (∃ n ∈ [normItem itemRice9],
        itemReason stShop.products annGeo.id annGeo.pincode n ≠ none) ∧
      (ordersCreateAuto hav0 stShop 1000 consumer0 [itemRice9] none none none =
        (.conflict annGeo.id annGeo.pincode none
          ([normItem itemRice9].filterMap
            (itemReason stShop.products annGeo.id annGeo.pincode)), stShop) ∧
        [normItem itemRice9].filterMap
          (itemReason stShop.products annGeo.id annGeo.pincode) ≠ []) :=
  ⟨rfl, by decide, by decide,
    c1_reserve_all_or_nothing hav0 stShop 1000 consumer0 [itemRice9] none none none
      [normItem itemRice9] annGeo none (by decide) (by decide) rfl (by decide)
      (by decide)⟩


/-! ## Commit-effect lemmas: the reservation fold touches exactly the
reserved rows -/

theorem stepProd_id_of_ne {pid : Nat} {q : Int} {p : Product} (h : p.id ≠ pid) :
    stepProd pid q p = p := by
  simp [stepProd, h]

theorem stepProd_preserves_id (pid : Nat) (q : Int) (p : Product) :
    (stepProd pid q p).id = p.id := by
  unfold stepProd
  split <;> rfl

theorem applyReserve_eq_map :
    ∀ (rows : List (Nat × Int)) (ps : List Product),
      applyReserve ps rows = ps.map fun p => rows.foldl (fun b r => stepProd r.1 r.2 b) p := by
  intro rows
  induction rows with
  | nil =>
    intro ps
    simp [applyReserve]
  | cons r rest ih =>
    intro ps
    have h1 : applyReserve ps (r :: rest) = applyReserve (updateProd ps r.1 r.2) rest := rfl
    rw [h1, ih]
    unfold updateProd
    rw [List.map_map]
    rfl

theorem foldl_step_preserves_id (p : Product) :
    ∀ rows : List (Nat × Int), (rows.foldl (fun b r => stepProd r.1 r.2 b) p).id = p.id := by
  intro rows
  induction rows generalizing p with
  | nil => rfl
  | cons r rest ih =>
    rw [List.foldl_cons, ih (stepProd r.1 r.2 p), stepProd_preserves_id]

theorem foldl_step_of_not_mem (p : Product) :
    ∀ rows : List (Nat × Int), (∀ r ∈ rows, r.1 ≠ p.id) →
      rows.foldl (fun b r => stepProd r.1 r.2 b) p = p := by
  intro rows
  induction rows generalizing p with
  | nil => intro _; rfl
  | cons r rest ih =>
    intro h
    rw [List.foldl_cons, stepProd_id_of_ne (fun he => h r (List.mem_cons_self r rest) he.symm)]
    exact ih p fun r2 h2 => h r2 (List.mem_cons_of_mem r h2)

theorem foldl_step_single {pid : Nat} {q : Int} :
    ∀ (rows : List (Nat × Int)) (p : Product), (pid, q) ∈ rows →
      (rows.map Prod.fst).Nodup → p.id = pid →
      rows.foldl (fun b r => stepProd r.1 r.2 b) p =
        { p with stock := p.stock - q, total_purchased := some (p.total_purchased.getD 0 + q) } := by
  intro rows
  induction rows with
  | nil =>
    intro p h
    exact absurd h (List.not_mem_nil _)
  | cons r rest ih =>
    intro p hmem hnd hid
    rw [List.map_cons, List.nodup_cons] at hnd
    rcases List.mem_cons.mp hmem with heq | hmem2
    · have hnd1 : pid ∉ List.map Prod.fst rest := by
        rw [← heq] at hnd
        exact hnd.1
      rw [List.foldl_cons, ← heq]
      have hstep : stepProd pid q p =
          { p with stock := p.stock - q,
                   total_purchased := some (p.total_purchased.getD 0 + q) } := by
        simp [stepProd, hid]
      rw [hstep]
      refine foldl_step_of_not_mem _ rest fun r2 h2 he => ?_
      have he' : r2.1 = pid := by rw [← hid]; exact he
      apply hnd1
      rw [← he']
      exact List.mem_map_of_mem Prod.fst h2
    · have hne : r.1 ≠ pid := by
        intro he
        exact hnd.1 (he ▸ List.mem_map_of_mem Prod.fst hmem2)
      rw [List.foldl_cons, stepProd_id_of_ne (by rw [hid]; exact fun hx => hne hx.symm)]
      exact ih p hmem2 hnd.2 hid

theorem find?_map_id_preserving (g : Product → Product) (hg : ∀ p, (g p).id = p.id)
    (k : Nat) :
    ∀ ps : List Product,
      (ps.map g).find? (fun p => p.id == k) = (ps.find? fun p => p.id == k).map g := by
  intro ps
  induction ps with
  | nil => rfl
  | cons a l ih =>
    rw [List.map_cons]
    by_cases h : a.id = k
    · have h1 : ((g a).id == k) = true := by rw [beq_iff_eq, hg]; exact h
      have h2 : (a.id == k) = true := by rw [beq_iff_eq]; exact h
      simp only [List.find?_cons, h1, h2]
      rfl
    · have h1 : ((g a).id == k) = false := by
        rw [beq_eq_false_iff_ne, hg]
        exact h
      have h2 : (a.id == k) = false := beq_eq_false_iff_ne.mpr h
      simp only [List.find?_cons, h1, h2]
      exact ih

theorem mem_id_inj :
    ∀ {ps : List Product}, (ps.map (·.id)).Nodup → ∀ {p q : Product}, p ∈ ps → q ∈ ps →
      p.id = q.id → p = q := by
  intro ps
  induction ps with
  | nil =>
    intro _ p q hp
    exact absurd hp (List.not_mem_nil p)
  | cons a l ih =>
    intro hnd p q hp hq hid
    rw [List.map_cons, List.nodup_cons] at hnd
    rcases List.mem_cons.mp hp with hpa | hpl <;> rcases List.mem_cons.mp hq with hqa | hql
    · rw [hpa, hqa]
    · exfalso
      apply hnd.1
      rw [← hpa, hid]
      exact List.mem_map_of_mem _ hql
    · exfalso
      apply hnd.1
      rw [← hqa, ← hid]
      exact List.mem_map_of_mem _ hpl
    · exact ih hnd.2 hpl hql hid

theorem find?_eq_self_of_nodup :
    ∀ {ps : List Product}, (ps.map (·.id)).Nodup → ∀ {p : Product}, p ∈ ps →
      (ps.find? fun q => q.id == p.id) = some p := by
  intro ps
  induction ps with
  | nil =>
    intro _ p hp
    exact absurd hp (List.not_mem_nil p)
  | cons a l ih =>
    intro hnd p hp
    rw [List.map_cons, List.nodup_cons] at hnd
    rcases List.mem_cons.mp hp with hpa | hpl
    · rw [hpa]
      exact List.find?_cons_of_pos _ (by simp)
    · rw [List.find?_cons_of_neg _ (by
        simp only [beq_iff_eq]
        intro he
        exact hnd.1 (he ▸ List.mem_map_of_mem _ hpl))]
      exact ih hnd.2 hpl

/-! ## Forall₂ plumbing -/

theorem forall2_and_mem_right {α β : Type} {R : α → β → Prop} :
    ∀ {l1 : List α} {l2 : List β}, List.Forall₂ R l1 l2 →
      List.Forall₂ (fun a b => R a b ∧ b ∈ l2) l1 l2 := by
  intro l1 l2 h
  induction h with
  | nil => exact List.Forall₂.nil
  | @cons a b l1' l2' hab _ ih =>
    refine List.Forall₂.cons ⟨hab, List.mem_cons_self b l2'⟩ (ih.imp ?_)
    intro x y hxy
    exact ⟨hxy.1, List.mem_cons_of_mem b hxy.2⟩

theorem forall2_mem_right_exists {α β : Type} {R : α → β → Prop} :
    ∀ {l1 : List α} {l2 : List β}, List.Forall₂ R l1 l2 → ∀ b ∈ l2, ∃ a ∈ l1, R a b := by
  intro l1 l2 h
  induction h with
  | nil =>
    intro b hb
    exact absurd hb (List.not_mem_nil b)
  | @cons a b l1' l2' hab hrest ih =>
    intro b2 hb2
    rcases List.mem_cons.mp hb2 with heq | hmem
    · exact ⟨a, List.mem_cons_self a l1', by rw [heq]; exact hab⟩
    · obtain ⟨a2, ha2, hr⟩ := ih b2 hmem
      exact ⟨a2, List.mem_cons_of_mem a ha2, hr⟩

theorem forall2_compose {α β γ : Type} {R : α → β → Prop} {S : β → γ → Prop}
    {T : α → γ → Prop} (h : ∀ a b c, R a b → S b c → T a c) :
    ∀ {l1 : List α} {l2 : List β} {l3 : List γ},
      List.Forall₂ R l1 l2 → List.Forall₂ S l2 l3 → List.Forall₂ T l1 l3 := by
  intro l1 l2 l3 h12
  induction h12 generalizing l3 with
  | nil =>
    intro h23
    cases h23
    exact List.Forall₂.nil
  | @cons a b l1' l2' hab _ ih =>
    intro h23
    cases h23 with
    | cons hbc h23' => exact List.Forall₂.cons (h a b _ hab hbc) (ih h23')

/-! ## The created order lines -/

theorem mkOrders_mem (uid annId : Nat) (b : String) :
    ∀ (rows : List (Nat × Int)) (startId : Nat), ∀ o ∈ mkOrders startId uid annId b rows,
      o.status = "Pending" ∧ o.assigned_annachi_id = some annId ∧ o.bundle_id = some b ∧
        o.consumer_id = uid := by
  intro rows
  induction rows with
  | nil =>
    intro startId o ho
    exact absurd ho (List.not_mem_nil o)
  | cons r rest ih =>
    intro startId o ho
    rcases List.mem_cons.mp ho with heq | hmem
    · rw [heq]
      exact ⟨rfl, rfl, rfl, rfl⟩
    · exact ih (startId + 1) o hmem

theorem mkOrders_forall2 (uid annId : Nat) (b : String) :
    ∀ (rows : List (Nat × Int)) (startId : Nat),
      List.Forall₂ (fun (pr : Nat × Int) (o : Order) =>
        o.product_id = pr.1 ∧ o.quantity = pr.2) rows (mkOrders startId uid annId b rows) := by
  intro rows
  induction rows with
  | nil => intro startId; exact List.Forall₂.nil
  | cons r rest ih =>
    intro startId
    exact List.Forall₂.cons ⟨rfl, rfl⟩ (ih (startId + 1))

/-! ## Resolved rows have pairwise distinct product ids -/

theorem findProd_props {prods : List Product} {annId : Nat} {annPin : Option String}
    {n : NormItem} {p : Product} (h : findProd prods annId annPin n = some p) :
    p ∈ prods ∧ p.name = n.name ∧ p.category = n.category := by
  refine ⟨List.mem_of_find?_eq_some h, ?_, ?_⟩
  · have := List.find?_some h
    simp only [Bool.and_eq_true, beq_iff_eq] at this
    exact this.1.1.2
  · have := List.find?_some h
    simp only [Bool.and_eq_true, beq_iff_eq] at this
    exact this.1.2

theorem rows_fst_nodup {prods : List Product} {annId : Nat} {annPin : Option String}
    (hids : (prods.map (·.id)).Nodup) :
    ∀ {norm : List NormItem} {rows : List (Nat × Int)},
      List.Forall₂ (fun n pr => ∃ p, findProd prods annId annPin n = some p ∧
        pr = (p.id, n.qty)) norm rows →
      (norm.map fun n => (n.name, n.category)).Nodup → (rows.map Prod.fst).Nodup := by
  intro norm rows hf
  induction hf with
  | nil => intro _; exact List.nodup_nil
  | @cons n pr norm' rows' hR hrest ih =>
    intro hkeys
    rw [List.map_cons, List.nodup_cons] at hkeys ⊢
    refine ⟨?_, ih hkeys.2⟩
    obtain ⟨p, hp, rfl⟩ := hR
    intro hmem
    rw [List.mem_map] at hmem
    obtain ⟨pr', hpr', hpid⟩ := hmem
    obtain ⟨n', hn', p', hp', hpr'eq⟩ := forall2_mem_right_exists hrest pr' hpr' 
    have hid : p'.id = p.id := by
      rw [hpr'eq] at hpid
      exact hpid
    have hpp : p' = p :=
      mem_id_inj hids (findProd_props hp').1 (findProd_props hp).1 hid
    apply hkeys.1
    have h1 := findProd_props hp
    have h2 := findProd_props hp'
    rw [List.mem_map]
    refine ⟨n', hn', ?_⟩
    rw [← h2.2.1, ← h2.2.2, hpp, h1.2.1, h1.2.2]


/-! ## Claim C5: success postcondition of bundle placement -/

theorem ordersCreateAuto_success_eq (hav : ℚ → ℚ → ℚ → ℚ → ℚ) (st : AppState) (now : Nat)
    (user : User) (items : List ItemIn) (cLat cLng : Option ℚ) (cPin : Option String)
    (norm : List NormItem) (ann : User) (dist : Option ℚ)
    (hrole : user.role = "consumer") (hne : items ≠ [])
    (hnorm : normalizeItems items = .ok norm)
    (hsel : selectBestAnnachi hav st.users cPin cLat cLng = (some ann, dist))
    (havail : ∀ n ∈ norm, itemReason st.products ann.id ann.pincode n = none) :
    ordersCreateAuto hav st now user items cLat cLng cPin =
      commitAuto st now user ann dist (checkItems st.products ann.id ann.pincode norm).2 := by
  have hemp : items.isEmpty = false := by
    cases items with
    | nil => exact absurd rfl hne
    | cons a l => rfl
  unfold ordersCreateAuto
  rw [if_neg (by simp [hrole]), if_neg (by simp [hemp])]
  split
  · rename_i it heq
    rw [hnorm] at heq
    exact absurd heq (by simp)
  · rename_i norm2 heq
    rw [hnorm] at heq
    injection heq with heq2
    subst heq2
    split
    · rename_i dist2 heq2
      rw [hsel] at heq2
      injection heq2 with h1 h2
      exact absurd h1 (by simp)
    · rename_i ann2 dist2 heq2
      rw [hsel] at heq2
      injection heq2 with h1 h2
      injection h1 with h1
      subst h1
      subst h2
      rw [if_neg]
      intro hq
      apply hq
      rw [checkItems_fst_eq]
      exact List.filterMap_eq_nil_iff.mpr havail

/-- C5 (confirmed).  When every line of a request is available from the
selected annachi, the call commits: it returns one generated bundle id and
one created line per item; every created line is `Pending`, assigned to the
selected annachi, and carries the bundle id; and for each item's resolved
product row, the committed table holds that row with stock decremented by
the requested quantity and total_purchased incremented by it. -/
theorem c5_success_postcondition (hav : ℚ → ℚ → ℚ → ℚ → ℚ) (st : AppState) (now : Nat)
    (user : User) (items : List ItemIn) (cLat cLng : Option ℚ) (cPin : Option String)
    (norm : List NormItem) (ann : User) (dist : Option ℚ)
    (hrole : user.role = "consumer") (hne : items ≠ [])
    (hnorm : normalizeItems items = .ok norm)
    (hsel : selectBestAnnachi hav st.users cPin cLat cLng = (some ann, dist))
    (havail : ∀ n ∈ norm, itemReason st.products ann.id ann.pincode n = none)
    (hids : (st.products.map (·.id)).Nodup)
    (hkeys : (norm.map fun n => (n.name, n.category)).Nodup) :
    ∃ newOrders st2,
      ordersCreateAuto hav st now user items cLat cLng cPin =
        (.created (newOrders.map (·.id)) (mkBundleId now user.id ("A" ++ toString ann.id))
          ann.id dist, st2) ∧
      newOrders.length = items.length ∧
      st2.orders = st.orders ++ newOrders ∧
      (∀ o ∈ newOrders, o.status = "Pending" ∧ o.assigned_annachi_id = some ann.id ∧
        o.bundle_id = some (mkBundleId now user.id ("A" ++ toString ann.id)) ∧
        o.consumer_id = user.id) ∧
      List.Forall₂ (fun n o => ∃ p, findProd st.products ann.id ann.pincode n = some p ∧
        o.product_id = p.id ∧ o.quantity = n.qty ∧
        st2.products.find? (fun q => q.id == p.id) =
          some { p with stock := p.stock - n.qty,
                        total_purchased := some (p.total_purchased.getD 0 + n.qty) })
        norm newOrders := by
  have hrows := checkItems_snd_forall2 st.products ann.id ann.pincode norm havail
  refine ⟨mkOrders st.nextOrderId user.id ann.id
      (mkBundleId now user.id ("A" ++ toString ann.id))
      (checkItems st.products ann.id ann.pincode norm).2,
    (commitAuto st now user ann dist (checkItems st.products ann.id ann.pincode norm).2).2,
    ?_, ?_, ?_, ?_, ?_⟩
  · rw [ordersCreateAuto_success_eq hav st now user items cLat cLng cPin norm ann dist hrole
      hne hnorm hsel havail]
    rfl
  · have h1 : norm.length = (checkItems st.products ann.id ann.pincode norm).2.length :=
      List.Forall₂.length_eq hrows
    have h2 : (checkItems st.products ann.id ann.pincode norm).2.length =
        (mkOrders st.nextOrderId user.id ann.id
          (mkBundleId now user.id ("A" ++ toString ann.id))
          (checkItems st.products ann.id ann.pincode norm).2).length :=
      List.Forall₂.length_eq (mkOrders_forall2 user.id ann.id
        (mkBundleId now user.id ("A" ++ toString ann.id))
        (checkItems st.products ann.id ann.pincode norm).2 st.nextOrderId)
    have h3 : norm = items.map normItem := normalizeItems_ok_map hnorm
    rw [← h2, ← h1, h3, List.length_map]
  · rfl
  · exact fun o ho => mkOrders_mem user.id ann.id
      (mkBundleId now user.id ("A" ++ toString ann.id))
      (checkItems st.products ann.id ann.pincode norm).2 st.nextOrderId o ho
  · refine forall2_compose ?_ (forall2_and_mem_right hrows)
      (mkOrders_forall2 user.id ann.id (mkBundleId now user.id ("A" ++ toString ann.id))
        (checkItems st.products ann.id ann.pincode norm).2 st.nextOrderId)
    intro n pr o hR hS
    obtain ⟨⟨p, hp, hpr⟩, hprmem⟩ := hR
    obtain ⟨hopid, hoqty⟩ := hS
    have hmem2 : (p.id, n.qty) ∈ (checkItems st.products ann.id ann.pincode norm).2 := by
      rw [hpr] at hprmem
      exact hprmem
    refine ⟨p, hp, ?_, ?_, ?_⟩
    · rw [hopid, hpr]
    · rw [hoqty, hpr]
    · have hfstnd : ((checkItems st.products ann.id ann.pincode norm).2.map Prod.fst).Nodup :=
        rows_fst_nodup hids hrows hkeys
      have hst2 : (commitAuto st now user ann dist
          (checkItems st.products ann.id ann.pincode norm).2).2.products =
          applyReserve st.products (checkItems st.products ann.id ann.pincode norm).2 := rfl
      rw [hst2, applyReserve_eq_map]
      rw [find?_map_id_preserving
        (fun p2 => (checkItems st.products ann.id ann.pincode norm).2.foldl
          (fun b r => stepProd r.1 r.2 b) p2)
        (fun p2 => foldl_step_preserves_id p2 (checkItems st.products ann.id ann.pincode norm).2)
        p.id st.products]
      rw [find?_eq_self_of_nodup hids (findProd_props hp).1]
      have hmap : ((some p).map fun p2 =>
          (checkItems st.products ann.id ann.pincode norm).2.foldl
            (fun b r => stepProd r.1 r.2 b) p2) =
          some ((checkItems st.products ann.id ann.pincode norm).2.foldl
            (fun b r => stepProd r.1 r.2 b) p) := rfl
      rw [hmap, foldl_step_single (checkItems st.products ann.id ann.pincode norm).2 p hmem2
        hfstnd rfl]

/-- A request line for two units of Rice (in stock). -/
def itemRice2 : ItemIn :=
  { name := some "Rice", category := some "cereals", quantity := some 2 }

theorem c5_success_postcondition_witness :
    normalizeItems [itemRice2] = .ok [normItem itemRice2] ∧
      selectBestAnnachi hav0 stShop.users none none none = (some annGeo, none) ∧
      (∀ n ∈ [normItem itemRice2],
        itemReason stShop.products annGeo.id annGeo.pincode n = none) ∧
      (∃ newOrders st2,
        ordersCreateAuto hav0 stShop 1000 consumer0 [itemRice2] none none none =
          (.created (newOrders.map (·.id))
            (mkBundleId 1000 consumer0.id ("A" ++ toString annGeo.id)) annGeo.id none, st2) ∧
        newOrders.length = ([itemRice2] : List ItemIn).length ∧
        st2.orders = stShop.orders ++ newOrders ∧
        (∀ o ∈ newOrders, o.status = "Pending" ∧ o.assigned_annachi_id = some annGeo.id ∧
          o.bundle_id = some (mkBundleId 1000 consumer0.id ("A" ++ toString annGeo.id)) ∧
          o.consumer_id = consumer0.id) ∧
        List.Forall₂ (fun n o => ∃ p,
          findProd stShop.products annGeo.id annGeo.pincode n = some p ∧
          o.product_id = p.id ∧ o.quantity = n.qty ∧
          st2.products.find? (fun q => q.id == p.id) =
            some { p with stock := p.stock - n.qty,
                          total_purchased := some (p.total_purchased.getD 0 + n.qty) })
          [normItem itemRice2] newOrders) :=
  ⟨rfl, by decide, by decide,
    c5_success_postcondition hav0 stShop 1000 consumer0 [itemRice2] none none none
      [normItem itemRice2] annGeo none (by decide) (by decide) rfl (by decide) (by decide)
      (by decide) (by decide)⟩


/-! ## Claim C2: the bundle single-provider invariant (corrected: the
legacy cart endpoint violates it) -/

theorem bundleInv_append_uniform {orders new : List Order} {B : String} {annId : Nat}
    (hinv : BundleInv orders)
    (hnew : ∀ o ∈ new, o.bundle_id = some B ∧ o.assigned_annachi_id = some annId)
    (hfresh : ∀ o ∈ orders, o.bundle_id ≠ some B) :
    BundleInv (orders ++ new) := by
  intro o1 h1 o2 h2 hnnone heq
  rcases List.mem_append.mp h1 with h1o | h1n <;> rcases List.mem_append.mp h2 with h2o | h2n
  · exact hinv o1 h1o o2 h2o hnnone heq
  · obtain ⟨hb2, -⟩ := hnew o2 h2n
    rw [hb2] at heq
    exact absurd heq (hfresh o1 h1o)
  · obtain ⟨hb1, -⟩ := hnew o1 h1n
    rw [hb1] at heq
    exact absurd heq.symm (hfresh o2 h2o)
  · obtain ⟨-, ha1⟩ := hnew o1 h1n
    obtain ⟨-, ha2⟩ := hnew o2 h2n
    rw [ha1, ha2]

theorem ordersCreateAuto_orders_cases (hav : ℚ → ℚ → ℚ → ℚ → ℚ) (st : AppState) (now : Nat)
    (user : User) (items : List ItemIn) (cLat cLng : Option ℚ) (cPin : Option String) :
    (ordersCreateAuto hav st now user items cLat cLng cPin).2.orders = st.orders ∨
    ∃ sfx annId new,
      (ordersCreateAuto hav st now user items cLat cLng cPin).2.orders = st.orders ++ new ∧
      ∀ o ∈ new, o.bundle_id = some (mkBundleId now user.id sfx) ∧
        o.assigned_annachi_id = some annId := by
  unfold ordersCreateAuto
  split
  · exact Or.inl rfl
  · split
    · exact Or.inl rfl
    · split
      · exact Or.inl rfl
      · rename_i norm heq
        split
        · exact Or.inl rfl
        · rename_i ann dist heq2
          split
          · exact Or.inl rfl
          · refine Or.inr ⟨"A" ++ toString ann.id, ann.id,
              mkOrders st.nextOrderId user.id ann.id
                (mkBundleId now user.id ("A" ++ toString ann.id))
                (checkItems st.products ann.id ann.pincode norm).2, rfl, ?_⟩
            intro o ho
            have h := mkOrders_mem user.id ann.id
              (mkBundleId now user.id ("A" ++ toString ann.id))
              (checkItems st.products ann.id ann.pincode norm).2 st.nextOrderId o ho
            exact ⟨h.2.2.1, h.2.1⟩

theorem apiCreateOrder_orders_cases (st : AppState) (now : Nat) (user : User)
    (pid : Option Nat) (qty0 : Option Int) :
    (apiCreateOrder st now user pid qty0).2.orders = st.orders ∨
    ∃ annId new, (apiCreateOrder st now user pid qty0).2.orders = st.orders ++ new ∧
      ∀ o ∈ new, o.bundle_id = some (mkBundleId now user.id ("single")) ∧
        o.assigned_annachi_id = some annId := by
  unfold apiCreateOrder
  split
  · exact Or.inl rfl
  · split
    · exact Or.inl rfl
    · rename_i p heq
      split
      · exact Or.inl rfl
      · split
        · exact Or.inl rfl
        · split
          · exact Or.inl rfl
          · refine Or.inr ⟨p.owner_id,
              [{ id := st.nextOrderId, consumer_id := user.id, product_id := p.id,
                 quantity := pyIntOr1 qty0, status := "Pending",
                 assigned_annachi_id := some p.owner_id,
                 bundle_id := some (mkBundleId now user.id ("single")) }], rfl, ?_⟩
            intro o ho
            rcases List.mem_cons.mp ho with heq2 | h0
            · rw [heq2]
              exact ⟨rfl, rfl⟩
            · exact absurd h0 (List.not_mem_nil o)

/-- Witness fixtures for the legacy counterexample: two products of two
different annachi owners in one pincode. -/
def prOwner10 : Product :=
  { id := 1, name := "Rice", category := "cereals", mrp := 10, price := 9, stock := 5,
    pincode := "600001", total_purchased := some 0, owner_id := 10 }

def prOwner20 : Product :=
  { id := 2, name := "Tomato", category := "vegetables", mrp := 4, price := 3, stock := 5,
    pincode := "600001", total_purchased := some 0, owner_id := 20 }

def stTwoOwners : AppState :=
  { users := [], products := [prOwner10, prOwner20], orders := [], subscribers := [],
    nextOrderId := 7 }

/-- C2 counterexample.  The legacy `/orders/create` endpoint stamps one
shared bundle id on every cart line but assigns each line to its product's
owner: a cart holding products of two different owners commits two lines
with the same bundle id and different assigned annachis, breaking the
single-provider bundle invariant. -/
theorem c2_bundle_invariant_cex :
    BundleInv stTwoOwners.orders ∧
      (ordersCreate stTwoOwners 1000 consumer0
        [{ product_id := 1, quantity := some 1 }, { product_id := 2, quantity := some 1 }]).1 =
        .created [7, 8] [mkBundleId 1000 consumer0.id ("legacy")] ∧
      ¬ BundleInv (ordersCreate stTwoOwners 1000 consumer0
        [{ product_id := 1, quantity := some 1 },
         { product_id := 2, quantity := some 1 }]).2.orders := by
  decide

/-- C2 (corrected).  `orders_create_auto` and `api_create_order` preserve
the invariant — every line they create carries one fresh bundle id and one
assigned annachi — but the legacy `orders_create` does not (see the
counterexample), so the invariant holds only of states not touched by a
mixed-owner legacy cart. -/
theorem c2_bundle_invariant_amended (hav : ℚ → ℚ → ℚ → ℚ → ℚ) (st : AppState) (now : Nat)
    (user : User) (items : List ItemIn) (cLat cLng : Option ℚ) (cPin : Option String)
    (pid : Option Nat) (qty0 : Option Int)
    (hinv : BundleInv st.orders)
    (hfresh : ∀ o ∈ st.orders, ∀ sfx, o.bundle_id ≠ some (mkBundleId now user.id sfx)) :
    BundleInv (ordersCreateAuto hav st now user items cLat cLng cPin).2.orders ∧
      BundleInv (apiCreateOrder st now user pid qty0).2.orders := by
  constructor
  · rcases ordersCreateAuto_orders_cases hav st now user items cLat cLng cPin with
      h | ⟨sfx, annId, new, h, hnew⟩
    · rw [h]
      exact hinv
    · rw [h]
      exact bundleInv_append_uniform hinv hnew fun o ho => hfresh o ho sfx
  · rcases apiCreateOrder_orders_cases st now user pid qty0 with
      h | ⟨annId, new, h, hnew⟩
    · rw [h]
      exact hinv
    · rw [h]
      exact bundleInv_append_uniform hinv hnew fun o ho => hfresh o ho ("single")

theorem c2_bundle_invariant_amended_witness :
    BundleInv stShop.orders ∧
      BundleInv (ordersCreateAuto hav0 stShop 1000 consumer0 [itemRice2]
        none none none).2.orders ∧
      BundleInv (apiCreateOrder stShop 1000 consumer0 (some 1) (some 1)).2.orders :=
  ⟨by decide,
    (c2_bundle_invariant_amended hav0 stShop 1000 consumer0 [itemRice2] none none none
      (some 1) (some 1) (by decide) fun o ho => absurd ho (List.not_mem_nil o)).1,
    (c2_bundle_invariant_amended hav0 stShop 1000 consumer0 [itemRice2] none none none
      (some 1) (some 1) (by decide) fun o ho => absurd ho (List.not_mem_nil o)).2⟩


/-! ## Claim C8: bundle status-update frame (corrected: lines whose product
row was deleted are excluded even for the assigned annachi) -/

theorem forall2_map_self {α β : Type} (f : α → β) (R : α → β → Prop) (h : ∀ a, R a (f a)) :
    ∀ l : List α, List.Forall₂ R l (l.map f) := by
  intro l
  induction l with
  | nil => exact List.Forall₂.nil
  | cons a l2 ih => exact List.Forall₂.cons (h a) ih

/-- Witness fixture: an order of the bundle b7 whose product row is gone,
assigned to annachi 1. -/
def oDangling : Order :=
  { id := 3, consumer_id := 5, product_id := 99, quantity := 1, status := "Pending",
    assigned_annachi_id := some 1, bundle_id := some "b7" }

def stDangling : AppState :=
  { users := [annGeo, consumer0], products := [], orders := [oDangling], subscribers := [],
    nextOrderId := 4 }

/-- C8 counterexample.  The caller (annachi 1) is the assigned annachi of
the bundle's only line, yet because the line's product row no longer exists
the inner join excludes it: the call fails with not-found/unauthorized and
the line keeps its old status instead of receiving the target status. -/
theorem c8_bundle_update_cex :
    annachiOrdersUpdate stDangling annGeo ("BUNDLE_b7") (some ("Packed")) =
      (.bundleNotFound, stDangling) ∧
      oDangling.assigned_annachi_id = some annGeo.id ∧ annGeo.role = "annachi" ∧
      oDangling.bundle_id = some "b7" ∧ oDangling.status ≠ "Packed" := by
  decide

/-- C8 (corrected).  For an annachi caller and a bundle-level update with a
non-empty target status: exactly those lines of the bundle whose product row
exists and for which the caller owns that product or is the assigned annachi
receive the target status; every other line, and every other field of the
updated lines, is unchanged; unauthorized lines do not fail the call as long
as at least one line is authorized. -/
theorem c8_bundle_update_amended (st : AppState) (user : User) (oid : String) (s : String)
    (hrole : user.role = "annachi") (hpre : strStartsWith oid ("BUNDLE_") = true)
    (hauth : ∃ o ∈ st.orders, bundleAuth st.products user.id (strDrop oid 7) o = true)
    (hs : s ≠ "") :
    ∃ st2,
      annachiOrdersUpdate st user oid (some s) = (.bundleUpdated (strDrop oid 7) s, st2) ∧
      List.Forall₂ (fun o o2 =>
        (bundleAuth st.products user.id (strDrop oid 7) o = true → o2 = { o with status := s }) ∧
        (bundleAuth st.products user.id (strDrop oid 7) o = false → o2 = o))
        st.orders st2.orders := by
  have hrows : (st.orders.filter (bundleAuth st.products user.id (strDrop oid 7))).isEmpty
      = false := by
    rw [List.isEmpty_eq_false_iff_exists_mem]
    obtain ⟨o, ho, hb⟩ := hauth
    exact ⟨o, List.mem_filter.mpr ⟨ho, hb⟩⟩
  refine ⟨{ st with
      orders := st.orders.map fun o =>
        if bundleAuth st.products user.id (strDrop oid 7) o then { o with status := s } else o,
      subscribers := broadcastAll st.subscribers
        (((st.orders.filter (bundleAuth st.products user.id (strDrop oid 7))).map fun o =>
          { o with status := s }).map (statusEvent st.products)) }, ?_, ?_⟩
  · unfold annachiOrdersUpdate
    rw [if_neg (by simp [hrole]), if_pos hpre, if_neg (by rw [hrows]; simp)]
    simp [hs]
  · refine forall2_map_self _ _ ?_ st.orders
    intro o
    by_cases hb : bundleAuth st.products user.id (strDrop oid 7) o = true
    · rw [if_pos hb]
      exact ⟨fun _ => rfl, fun hf => absurd hb (by rw [hf]; simp)⟩
    · rw [if_neg hb]
      refine ⟨fun ht => absurd ht hb, fun _ => rfl⟩

/-- Witness fixture: a healthy bundle line of product 1 assigned to
annachi 1. -/
def oLive : Order :=
  { id := 3, consumer_id := 5, product_id := 1, quantity := 1, status := "Pending",
    assigned_annachi_id := some 1, bundle_id := some "b7" }

def stLive : AppState :=
  { users := [annGeo, consumer0], products := [prRice], orders := [oLive],
    subscribers := [], nextOrderId := 4 }

theorem c8_bundle_update_amended_witness :
    annGeo.role = "annachi" ∧ strStartsWith ("BUNDLE_b7") ("BUNDLE_") = true ∧
      (∃ o ∈ stLive.orders,
        bundleAuth stLive.products annGeo.id (strDrop ("BUNDLE_b7") 7) o = true) ∧
      (∃ st2,
        annachiOrdersUpdate stLive annGeo ("BUNDLE_b7") (some ("Packed")) =
          (.bundleUpdated (strDrop ("BUNDLE_b7") 7) "Packed", st2) ∧
        List.Forall₂ (fun o o2 =>
          (bundleAuth stLive.products annGeo.id (strDrop ("BUNDLE_b7") 7) o = true →
            o2 = { o with status := "Packed" }) ∧
          (bundleAuth stLive.products annGeo.id (strDrop ("BUNDLE_b7") 7) o = false → o2 = o))
          stLive.orders st2.orders) :=
  ⟨rfl, by decide, by decide,
    c8_bundle_update_amended stLive annGeo ("BUNDLE_b7") "Packed" (by decide) (by decide)
      (by decide) (by decide)⟩

/-! ## Claim C9: broadcaster fault isolation -/

/-- C9 (confirmed).  `broadcast` is a total function (no exception reaches
the publisher); every queue whose enqueue succeeds receives the event and
stays registered, every queue whose enqueue raises is dropped from the
registry, and nothing else ever appears in the registry. -/
theorem c9_broadcast_isolation (subs : List Queue) (data : Event) :
    (∀ q ∈ subs, q.fails = false →
      { q with contents := q.contents ++ [data] } ∈ broadcast subs data) ∧
    (∀ q2 ∈ broadcast subs data, q2.fails = false ∧
      ∃ q ∈ subs, q.fails = false ∧ q2 = { q with contents := q.contents ++ [data] }) := by
  constructor
  · intro q hq hf
    unfold broadcast
    rw [List.mem_filter]
    constructor
    · rw [List.mem_map]
      exact ⟨q, hq, by rw [if_neg (by rw [hf]; simp)]⟩
    · simp only [Bool.not_eq_true']
      exact hf
  · intro q2 hq2
    unfold broadcast at hq2
    rw [List.mem_filter] at hq2
    obtain ⟨hmem, hnf⟩ := hq2
    rw [List.mem_map] at hmem
    obtain ⟨q, hq, heq⟩ := hmem
    by_cases hf : q.fails = true
    · rw [if_pos hf] at heq
      rw [← heq, hf] at hnf
      simp at hnf
    · rw [if_neg hf] at heq
      have hf2 : q.fails = false := by
        cases hfc : q.fails
        · rfl
        · exact absurd hfc hf
      have hq2f : q2.fails = false := by
        rw [← heq]
        exact hf2
      exact ⟨hq2f, q, hq, hf2, heq.symm⟩

end SasyaNova
